import Mathlib

/-!
# DisasterNet node (`Mesh/cmd/disasternet/main.go`): store, HTTP bridge, inbound loop, tie-break

A shallow embedding of the Go program and proofs of its specified properties.

Modelling conventions.

* Go `string` values handled by the handlers are Lean `String`s (sequences of
  Unicode scalar values).  Every string the handlers see is produced by
  `encoding/json` decoding, which coerces invalid UTF-8 to U+FFFD, so the
  handlers only ever hold well-formed UTF-8; the wire is modelled at the level
  of code points (UTF-8 is a bijection between the two views on valid input).
* `encoding/json` is an external library.  The parts the program relies on are
  modelled concretely: the string escaping of `json.Marshal` (HTML escaping
  on), the JSON grammar accepted by the decoder (nesting limit 10000), string
  unquoting with surrogate handling, the `float64` range check applied to
  numbers stored in `interface{}` values, and case-folded field matching for
  struct targets.
* `time.Now()` readings, the result of `cr.Publish` and of the log-file write
  are inputs of each step.  Console output (`fmt.Println`, `log.Println`) is
  not recorded; the result of `h.Connect` only selects what is printed.
* The global `MessageArr` guarded by `messageMu` is the field `MessageArr` of
  `World`; every critical section is one atomic step.  The field `effects` is a
  chronological record of the calls made to the store and to the external
  collaborators; it is only used to state ordering and absence properties.
-/

namespace DisasterNet

/-! ## encoding/json: encoder side -/

/-- Lower-case hexadecimal digit table used by the encoder (`hex` in encode.go). -/
def hex : List Char := "0123456789abcdef".data

/-- Hexadecimal digit for a nibble. -/
def hexDigit (n : Nat) : Char := hex.getD n '0'

/-- Escaping of one code point by `appendString` with HTML escaping enabled, as
`json.Marshal` does.  `shortBF` selects the release behaviour for backspace and
form feed: Go 1.22 and later write them as `\b` and `\f`, earlier releases as
`\u0008` and `\u000c`. -/
def escapeChar (shortBF : Bool) (c : Char) : List Char :=
  if c = '\\' ∨ c = '"' then ['\\', c]
  else if c = '\n' then ['\\', 'n']
  else if c = '\r' then ['\\', 'r']
  else if c = '\t' then ['\\', 't']
  else if shortBF = true ∧ c.toNat = 8 then ['\\', 'b']
  else if shortBF = true ∧ c.toNat = 12 then ['\\', 'f']
  else if c.toNat < 32 ∨ c = '<' ∨ c = '>' ∨ c = '&' then
    ['\\', 'u', '0', '0', hexDigit (c.toNat / 16), hexDigit (c.toNat % 16)]
  else if c.toNat = 8232 ∨ c.toNat = 8233 then
    ['\\', 'u', '2', '0', '2', hexDigit (c.toNat % 16)]
  else [c]

/-- Escaped body of a JSON string literal (without the surrounding quotes). -/
def escapeString (shortBF : Bool) : List Char → List Char
  | [] => []
  | c :: cs => escapeChar shortBF c ++ escapeString shortBF cs

/-- JSON string literal for a Go string. -/
def encodeString (shortBF : Bool) (s : List Char) : List Char :=
  '"' :: (escapeString shortBF s ++ ['"'])

/-- Decimal digits of a natural number, most significant first
(`strconv.AppendInt` in base 10); the first argument bounds the number of
digits. -/
def formatDigits : Nat → Nat → List Char → List Char
  | 0, _, acc => acc
  | fuel + 1, n, acc =>
    if n < 10 then Nat.digitChar n :: acc
    else formatDigits fuel (n / 10) (Nat.digitChar (n % 10) :: acc)

/-- Decimal literal of a natural number. -/
def formatNat (n : Nat) : List Char := formatDigits (n + 1) n []

/-- Decimal literal of an integer, as `json.Marshal` writes an `int64`. -/
def formatInt (i : Int) : List Char :=
  if i < 0 then '-' :: formatNat i.natAbs else formatNat i.natAbs

/-- The bytes `json.Marshal` produces for the map built in `PostMessage`,
`{"content": .., "userType": .., "timestamp": ..}`: an object whose members
are written in sorted key order, without white space; keys and string values
go through the string encoder, the `int64` is written in decimal. -/
def marshalMessageWithType (shortBF : Bool) (content userType : String) (timestamp : Int) :
    String :=
  String.mk ('{' :: (encodeString shortBF "content".data ++ ':' ::
    (encodeString shortBF content.data ++ ',' ::
    (encodeString shortBF "timestamp".data ++ ':' ::
    (formatInt timestamp ++ ',' ::
    (encodeString shortBF "userType".data ++ ':' ::
    (encodeString shortBF userType.data ++ ['}'])))))))

/-! ## encoding/json: decoder side -/

/-- Sign, integer digits, fraction digits and exponent (sign, digits) of a JSON
number literal. -/
structure NumLit where
  neg : Bool
  intDigits : List Char
  fracDigits : List Char
  exp : Option (Bool × List Char)
deriving DecidableEq, Repr

/-- JSON values as the decoder stores them in `interface{}`. -/
inductive JValue where
  | null : JValue
  | bool (b : Bool) : JValue
  | number (n : NumLit) : JValue
  | str (s : List Char) : JValue
  | array (xs : List JValue) : JValue
  | object (kvs : List (List Char × JValue)) : JValue

/-- JSON white space (`isSpace` in scanner.go). -/
def isSpace (c : Char) : Bool := c = ' ' ∨ c = '\t' ∨ c = '\r' ∨ c = '\n'

/-- Drop leading white space. -/
def skipWS : List Char → List Char
  | [] => []
  | c :: cs => if isSpace c then skipWS cs else c :: cs

/-- Value of a hexadecimal digit, either case. -/
def hexVal (c : Char) : Option Nat :=
  if 48 ≤ c.toNat ∧ c.toNat ≤ 57 then some (c.toNat - 48)
  else if 97 ≤ c.toNat ∧ c.toNat ≤ 102 then some (c.toNat - 97 + 10)
  else if 65 ≤ c.toNat ∧ c.toNat ≤ 70 then some (c.toNat - 65 + 10)
  else none

/-- Value of four hexadecimal digits (`getu4` in decode.go). -/
def hex4 (a b c d : Char) : Option Nat :=
  match hexVal a, hexVal b, hexVal c, hexVal d with
  | some x, some y, some z, some w => some (((x * 16 + y) * 16 + z) * 16 + w)
  | _, _, _, _ => none

/-- The Unicode replacement character U+FFFD. -/
def replacementChar : Char := Char.ofNat 65533

/-- High (leading) surrogate code unit. -/
def isHighSurrogate (v : Nat) : Bool := 55296 ≤ v ∧ v < 56320

/-- Low (trailing) surrogate code unit. -/
def isLowSurrogate (v : Nat) : Bool := 56320 ≤ v ∧ v < 57344

/-- Code point of a surrogate pair (`utf16.DecodeRune`). -/
def combineSurrogates (h l : Nat) : Nat := (h - 55296) * 1024 + (l - 56320) + 65536

/-- Single-character escapes accepted after a backslash. -/
def unescape (e : Char) : Option Char :=
  if e = '"' then some '"'
  else if e = '\\' then some '\\'
  else if e = '/' then some '/'
  else if e = 'b' then some (Char.ofNat 8)
  else if e = 'f' then some (Char.ofNat 12)
  else if e = 'n' then some '\n'
  else if e = 'r' then some '\r'
  else if e = 't' then some '\t'
  else none

/-- What an unpaired high surrogate escape contributes: U+FFFD. -/
def pendPrefix : Option Nat → List Char
  | none => []
  | some _ => [replacementChar]

/-- Prepend decoded characters to the result of scanning the remainder. -/
def emit (pre : List Char) (r : Option (List Char × List Char)) : Option (List Char × List Char) :=
  match r with
  | none => none
  | some (s, rest) => some (pre ++ s, rest)

/-- Scan and unquote a string literal after its opening quote; returns the
decoded string and the input after the closing quote.  `pend` holds a high
surrogate escape that was just read and is waiting for its partner: a valid
pair becomes one code point, an unpaired surrogate becomes U+FFFD (`unquote`
in decode.go).  Control characters below 0x20 and unknown escapes are
errors. -/
def scanString : Option Nat → List Char → Option (List Char × List Char)
  | _, [] => none
  | pend, c :: rest =>
    if c = '"' then some (pendPrefix pend, rest)
    else if c = '\\' then
      match rest with
      | [] => none
      | e :: rest2 =>
        if e = 'u' then
          match rest2 with
          | a :: b :: c2 :: d :: rest3 =>
            match hex4 a b c2 d with
            | none => none
            | some v =>
              if isHighSurrogate v then
                emit (pendPrefix pend) (scanString (some v) rest3)
              else if isLowSurrogate v then
                match pend with
                | some h => emit [Char.ofNat (combineSurrogates h v)] (scanString none rest3)
                | none => emit [replacementChar] (scanString none rest3)
              else emit (pendPrefix pend ++ [Char.ofNat v]) (scanString none rest3)
          | _ => none
        else
          match unescape e with
          | some ch => emit (pendPrefix pend ++ [ch]) (scanString none rest2)
          | none => none
    else if c.toNat < 32 then none
    else emit (pendPrefix pend ++ [c]) (scanString none rest)

/-- Decimal digit test. -/
def isDigit (c : Char) : Bool := 48 ≤ c.toNat ∧ c.toNat ≤ 57

/-- Longest prefix of decimal digits, and the remainder. -/
def spanDigits : List Char → List Char × List Char
  | [] => ([], [])
  | c :: cs =>
    if isDigit c then ((c :: (spanDigits cs).1), (spanDigits cs).2)
    else ([], c :: cs)

/-- Optional exponent part of a number literal. -/
def scanExp (neg : Bool) (int frac : List Char) (cs : List Char) : Option (NumLit × List Char) :=
  match cs with
  | [] => some (⟨neg, int, frac, none⟩, [])
  | c :: r =>
    if c = 'e' ∨ c = 'E' then
      match r with
      | [] => none
      | s :: r2 =>
        if s = '+' ∨ s = '-' then
          match spanDigits r2 with
          | ([], _) => none
          | (d :: ds, r3) => some (⟨neg, int, frac, some (decide (s = '-'), d :: ds)⟩, r3)
        else
          match spanDigits r with
          | ([], _) => none
          | (d :: ds, r3) => some (⟨neg, int, frac, some (false, d :: ds)⟩, r3)
    else some (⟨neg, int, frac, none⟩, c :: r)

/-- Optional fraction part, then the exponent part. -/
def scanFrac (neg : Bool) (int : List Char) (cs : List Char) : Option (NumLit × List Char) :=
  match cs with
  | [] => some (⟨neg, int, [], none⟩, [])
  | c :: r =>
    if c = '.' then
      match spanDigits r with
      | ([], _) => none
      | (d :: ds, r2) => scanExp neg int (d :: ds) r2
    else scanExp neg int [] (c :: r)

/-- Integer part of a number literal (after the optional minus sign): a single
`0`, or a non-zero digit followed by digits. -/
def scanInt (neg : Bool) (cs : List Char) : Option (NumLit × List Char) :=
  match cs with
  | [] => none
  | d :: r =>
    if d = '0' then scanFrac neg ['0'] r
    else if isDigit d then scanFrac neg (d :: (spanDigits r).1) (spanDigits r).2
    else none

/-- Scan a number literal. -/
def scanNumber (cs : List Char) : Option (NumLit × List Char) :=
  match cs with
  | [] => none
  | c :: r => if c = '-' then scanInt true r else scanInt false (c :: r)

/-- Value of a string of decimal digits. -/
def digitsVal (ds : List Char) : Nat := ds.foldl (fun acc c => acc * 10 + (c.toNat - 48)) 0

/-- Smallest magnitude that `strconv.ParseFloat` rounds to infinity at 64 bits:
the largest finite `float64` plus half a unit in the last place. -/
def float64Limit : Nat := 2 ^ 1024 - 2 ^ 970

/-- Whether converting the literal to `float64` reports a range error
(`convertNumber` fails).  The magnitude `m * 10 ^ e` is compared exactly; the
short cuts avoid computing powers that cannot change the outcome. -/
def NumLit.overflows (n : NumLit) : Bool :=
  let m := digitsVal (n.intDigits ++ n.fracDigits)
  let e : Int := (match n.exp with
    | none => 0
    | some (true, ds) => - (digitsVal ds : Int)
    | some (false, ds) => (digitsVal ds : Int)) - (n.fracDigits.length : Int)
  if m = 0 then false
  else if 0 ≤ e then
    if 400 < e then true else decide (float64Limit ≤ m * 10 ^ e.toNat)
  else
    if ((n.intDigits.length + n.fracDigits.length : Nat) : Int) ≤ -e then false
    else decide (float64Limit * 10 ^ (-e).toNat ≤ m)

/-- Maximum nesting depth of arrays and objects (`maxNestingDepth`). -/
def maxNestingDepth : Nat := 10000

/-- Remove a literal prefix from the input. -/
def stripPrefix : List Char → List Char → Option (List Char)
  | [], cs => some cs
  | _ :: _, [] => none
  | p :: ps, c :: cs => if p = c then stripPrefix ps cs else none

/-- Parse a value that is not an array or object, given its first character:
a string, one of the literals `true`, `false`, `null`, or a number. -/
def parseScalar (checkRange : Bool) (c : Char) (rest : List Char) :
    Option (JValue × List Char) :=
  if c = '"' then
    match scanString none rest with
    | none => none
    | some (s, rest2) => some (JValue.str s, rest2)
  else if c = 't' then
    match stripPrefix "rue".data rest with
    | none => none
    | some rest2 => some (JValue.bool true, rest2)
  else if c = 'f' then
    match stripPrefix "alse".data rest with
    | none => none
    | some rest2 => some (JValue.bool false, rest2)
  else if c = 'n' then
    match stripPrefix "ull".data rest with
    | none => none
    | some rest2 => some (JValue.null, rest2)
  else
    match scanNumber (c :: rest) with
    | none => none
    | some (n, rest2) =>
      if checkRange && n.overflows then none else some (JValue.number n, rest2)

mutual
/-- Parse one JSON value at the head of the input (leading white space already
skipped).  `depth` is the number of enclosing arrays and objects; `checkRange`
says whether numbers are converted to `float64` (they are when stored into an
`interface{}`, not when skipped).  The first argument bounds the recursion;
`cs.length + 1` always suffices. -/
def parseValue (checkRange : Bool) : Nat → Nat → List Char → Option (JValue × List Char)
  | 0, _, _ => none
  | _ + 1, _, [] => none
  | fuel + 1, depth, c :: rest =>
    if c = '{' then
      if maxNestingDepth ≤ depth then none
      else
        match skipWS rest with
        | [] => none
        | c2 :: rest2 =>
          if c2 = '}' then some (JValue.object [], rest2)
          else
            match parseMembers checkRange fuel (depth + 1) (c2 :: rest2) with
            | none => none
            | some (kvs, rest3) => some (JValue.object kvs, rest3)
    else if c = '[' then
      if maxNestingDepth ≤ depth then none
      else
        match skipWS rest with
        | [] => none
        | c2 :: rest2 =>
          if c2 = ']' then some (JValue.array [], rest2)
          else
            match parseElems checkRange fuel (depth + 1) (c2 :: rest2) with
            | none => none
            | some (xs, rest3) => some (JValue.array xs, rest3)
    else parseScalar checkRange c rest
/-- Parse the members of an object, starting at the first key, up to and
including the closing brace. -/
def parseMembers (checkRange : Bool) :
    Nat → Nat → List Char → Option (List (List Char × JValue) × List Char)
  | 0, _, _ => none
  | _ + 1, _, [] => none
  | fuel + 1, depth, c :: rest =>
    if c = '"' then
      match scanString none rest with
      | none => none
      | some (k, rest1) =>
        match skipWS rest1 with
        | [] => none
        | c1 :: rest2 =>
          if c1 = ':' then
            match parseValue checkRange fuel depth (skipWS rest2) with
            | none => none
            | some (v, rest3) =>
              match skipWS rest3 with
              | [] => none
              | c3 :: rest4 =>
                if c3 = ',' then
                  match parseMembers checkRange fuel depth (skipWS rest4) with
                  | none => none
                  | some (kvs, rest5) => some ((k, v) :: kvs, rest5)
                else if c3 = '}' then some ([(k, v)], rest4)
                else none
          else none
    else none
/-- Parse the elements of an array, starting at the first element, up to and
including the closing bracket. -/
def parseElems (checkRange : Bool) :
    Nat → Nat → List Char → Option (List JValue × List Char)
  | 0, _, _ => none
  | fuel + 1, depth, cs =>
    match parseValue checkRange fuel depth cs with
    | none => none
    | some (v, rest) =>
      match skipWS rest with
      | [] => none
      | c :: rest2 =>
        if c = ',' then
          match parseElems checkRange fuel depth (skipWS rest2) with
          | none => none
          | some (xs, rest3) => some (v :: xs, rest3)
        else if c = ']' then some ([v], rest2)
        else none
end

/-- Whether the payload is the literal `null`, white space around it
allowed. -/
def isNullLiteral (data : List Char) : Bool :=
  match stripPrefix "null".data (skipWS data) with
  | none => false
  | some rest => (skipWS rest).isEmpty

/-- Outcome of `json.Unmarshal(data, &m)` for a nil `m : map[string]interface{}`:
`none` when an error is returned, otherwise the key/value pairs stored, in
input order.  The whole input must be one JSON value surrounded by white space;
an object fills the map, `null` leaves it nil, any other value is a type
error. -/
def unmarshalMap (data : List Char) : Option (List (List Char × JValue)) :=
  match parseValue true (data.length + 1) 0 (skipWS data) with
  | none => none
  | some (v, rest) =>
    match skipWS rest with
    | [] =>
      match v with
      | JValue.object kvs => some kvs
      | JValue.null => some []
      | _ => none
    | _ :: _ => none

/-- Map index expression `m[key]`: a later duplicate key overwrites an earlier
one; `none` is the nil interface of a missing key. -/
def mapIndex (kvs : List (List Char × JValue)) (key : List Char) : Option JValue :=
  kvs.foldl (fun acc kv => if kv.1 = key then some kv.2 else acc) none

/-- Type assertion `v.(string)` with the ok flag discarded: the zero value
`""` unless the interface holds a string. -/
def assertString : Option JValue → String
  | some (JValue.str s) => String.mk s
  | _ => ""

/-- Case folding of field names (`foldName`): ASCII letters to upper case, and
the two non-ASCII code points that fold to ASCII letters, U+017F to `S` and
U+212A to `K`.  Other code points are left alone, which does not change
whether a key folds to an all-ASCII field name. -/
def foldRune (c : Char) : Char :=
  if 97 ≤ c.toNat ∧ c.toNat ≤ 122 then Char.ofNat (c.toNat - 32)
  else if c.toNat = 383 then 'S'
  else if c.toNat = 8490 then 'K'
  else c

/-- Folded form of a key. -/
def foldName (s : List Char) : List Char := s.map foldRune

/-! ## Data model (main.go lines 19-34) -/

/-- Request payload of `POST /send`. -/
structure IncomingMsg where
  Message : String
  UserType : String
deriving DecidableEq, Repr

/-- A `time.Time` reading: the instant, as nanoseconds since the Unix epoch,
and the offset of its location, in seconds east of UTC. -/
structure Time where
  unixNano : Int
  zoneOffset : Int
deriving DecidableEq, Repr

/-- Calendar year of the reading in its location (`Time.Year`): proleptic
Gregorian calendar with a year 0, computed from the day count. -/
def Time.year (t : Time) : Int :=
  let secs := t.unixNano / 1000000000 + t.zoneOffset
  let days := secs / 86400
  let z := days + 719468
  let era := z / 146097
  let doe := z % 146097
  let yoe := (doe - doe / 1460 + doe / 36524 - doe / 146096) / 365
  let doy := doe - (365 * yoe + yoe / 4 - yoe / 100)
  let mp := (5 * doy + 2) / 153
  if mp < 10 then yoe + era * 400 else yoe + era * 400 + 1

/-- Whether `Time.MarshalJSON` returns an error: the reading has no strict
RFC 3339 form when its year is outside 0..9999 or the hour of its zone offset
is 24 or more. -/
def Time.marshalJSONFails (t : Time) : Bool :=
  decide (t.year < 0) || decide (9999 < t.year) || decide (24 ≤ t.zoneOffset.natAbs / 3600)

/-- One chat event as shown to the user. -/
structure DisplayMessage where
  Content : String
  Sender : String
  UserType : String
  Timestamp : Time
deriving DecidableEq, Repr

/-- The fields of `IncomingMsg` by JSON name. -/
inductive Field where
  | Message : Field
  | UserType : Field
deriving DecidableEq, Repr

/-- Field selected by an object key: exact name first, then folded name. -/
def findField (key : List Char) : Option Field :=
  if key = "message".data then some Field.Message
  else if key = "userType".data then some Field.UserType
  else if foldName key = foldName "message".data then some Field.Message
  else if foldName key = foldName "userType".data then some Field.UserType
  else none

/-- Store one object member into the struct; the flag records a saved
`UnmarshalTypeError` (decoding continues after it).  Unknown keys are skipped,
`null` leaves the field alone, a non-string value for a string field is a type
error. -/
def storeMember (st : IncomingMsg × Bool) (kv : List Char × JValue) : IncomingMsg × Bool :=
  match findField kv.1 with
  | none => st
  | some f =>
    match kv.2 with
    | JValue.str s =>
      match f with
      | Field.Message => ({ st.1 with Message := String.mk s }, st.2)
      | Field.UserType => ({ st.1 with UserType := String.mk s }, st.2)
    | JValue.null => st
    | _ => (st.1, true)

/-- Outcome of `json.NewDecoder(r.Body).Decode(&msg_post)` on a zero
`IncomingMsg`: the struct afterwards and whether an error was returned.  The
decoder reads the first JSON value of the body and ignores what follows it. -/
def decodeIncomingMsg (body : List Char) : IncomingMsg × Bool :=
  match parseValue false (body.length + 1) 0 (skipWS body) with
  | none => (⟨"", ""⟩, true)
  | some (v, _) =>
    match v with
    | JValue.object kvs => kvs.foldl storeMember (⟨"", ""⟩, false)
    | JValue.null => (⟨"", ""⟩, false)
    | _ => (⟨"", ""⟩, true)

/-! ## Store (main.go lines 31-46) -/

/-- A libp2p peer identity: `peer.ID` is a Go string, a sequence of bytes. -/
abbrev ID := List Nat

/-- A discovered peer record (`peer.AddrInfo`). -/
structure AddrInfo where
  ID : ID
  Addrs : List String
deriving DecidableEq, Repr

/-- Calls made to the store and to the external collaborators. -/
inductive Effect where
  | publish (payload : String) : Effect
  | store (msg : DisplayMessage) : Effect
  | logWrite (text : String) : Effect
  | connect (peer : AddrInfo) : Effect
deriving DecidableEq, Repr

/-- Process state: the global `MessageArr`, and the record of calls made so
far, oldest first. -/
structure World where
  MessageArr : List DisplayMessage
  effects : List Effect
deriving DecidableEq, Repr

/-- `StoreMessage`: append under the mutex. -/
def StoreMessage (msg : DisplayMessage) (w : World) : World :=
  { MessageArr := w.MessageArr ++ [msg], effects := w.effects ++ [Effect.store msg] }

/-! ## HTTP bridge (main.go lines 36-126) -/

/-- The parts of `*http.Request` the handlers read. -/
structure Request where
  Method : String
  Body : String
deriving DecidableEq, Repr

/-- Response body: nothing, a text line, or the value handed to the JSON
encoder. -/
inductive Body where
  | empty : Body
  | text (s : String) : Body
  | json (messages : List DisplayMessage) : Body
deriving DecidableEq, Repr

/-- What the handler wrote to its `http.ResponseWriter`; the status is 200
unless `WriteHeader` was called with another code. -/
structure Response where
  header : List (String × String)
  status : Nat
  body : Body
deriving DecidableEq, Repr

/-- `Header.Set`: replace the values of a key. -/
def headerSet (h : List (String × String)) (k v : String) : List (String × String) :=
  h.filter (fun kv => kv.1 ≠ k) ++ [(k, v)]

/-- `enableCORS`: the three CORS headers. -/
def enableCORS (h : List (String × String)) : List (String × String) :=
  headerSet (headerSet (headerSet h "Access-Control-Allow-Origin" "*")
    "Access-Control-Allow-Methods" "GET, POST, OPTIONS")
    "Access-Control-Allow-Headers" "Content-Type"

/-- `http.Error`: plain-text error reply with the given status. -/
def httpError (h : List (String × String)) (error : String) (code : Nat) : Response :=
  { header := headerSet (headerSet h "Content-Type" "text/plain; charset=utf-8")
      "X-Content-Type-Options" "nosniff",
    status := code,
    body := Body.text (error ++ "\n") }

/-- `GetMessages`: copy the store under the mutex and encode the copy.
`Encode` marshals the whole slice before it writes anything; it fails when the
timestamp of some element cannot be marshalled (strings always can), and the
handler then answers 500.  A failing write to the client connection is not
modelled. -/
def GetMessages (r : Request) (w : World) : World × Response :=
  let h := enableCORS []
  if r.Method = "OPTIONS" then (w, { header := h, status := 200, body := Body.empty })
  else if r.Method ≠ "GET" then (w, httpError h "Only Get Method supported" 400)
  else
    let messages := w.MessageArr
    let h2 := headerSet h "Content-Type" "application/json"
    if messages.any (fun m => m.Timestamp.marshalJSONFails) then
      (w, httpError h2 "failed to encode messages" 500)
    else (w, { header := h2, status := 200, body := Body.json messages })

/-- `getSenderName`. -/
def getSenderName (userType : String) : String :=
  if userType = "team" then "NDRF Team" else "Civilian"

/-- What the environment returns to one run of `PostMessage`: the encoder
release behaviour, the two clock readings (`time.Now().Unix()` for the payload,
`time.Now()` for the stored message) and the error returned by `cr.Publish`
(`none` is nil). -/
structure PostEnv where
  shortBF : Bool
  unixNow : Int
  now : Time
  publishErr : Option String
deriving DecidableEq, Repr

/-- `PostMessage`.  `json.Marshal` cannot fail on a map of two strings and an
`int64`, so its error branch is not reachable. -/
def PostMessage (r : Request) (env : PostEnv) (w : World) : World × Response :=
  let h := enableCORS []
  if r.Method = "OPTIONS" then (w, { header := h, status := 200, body := Body.empty })
  else if r.Method ≠ "POST" then (w, httpError h "Only POST Method supported" 400)
  else
    let (msg_post, err) := decodeIncomingMsg r.Body.data
    if err = true ∨ msg_post.Message = "" then (w, httpError h "failed to decode" 400)
    else
      let messageBytes :=
        marshalMessageWithType env.shortBF msg_post.Message msg_post.UserType env.unixNow
      let w1 : World := { w with effects := w.effects ++ [Effect.publish messageBytes] }
      let displayMsg : DisplayMessage :=
        { Content := msg_post.Message,
          Sender := getSenderName msg_post.UserType,
          UserType := msg_post.UserType,
          Timestamp := env.now }
      let w2 := StoreMessage displayMsg w1
      match env.publishErr with
      | some _ => (w2, httpError h "failed to publish" 500)
      | none => (w2, { header := h, status := 200, body := Body.empty })

/-! ## Discovery loop (main.go lines 150-167) -/

/-- Go's `<` on strings: bytewise lexicographic order. -/
def stringLess : List Nat → List Nat → Bool
  | [], [] => false
  | [], _ :: _ => true
  | _ :: _, [] => false
  | a :: as, b :: bs =>
    if a < b then true else if b < a then false else stringLess as bs

/-- Modelled from the spec: the inbound event `{senderNickname, rawBytes}` of
the relay (section 4.4).  Its type `p2p.ChatMessage` is declared in
`internal/p2p`, outside the sources at hand; these are the two fields the loop
reads, `msg.Message` and `msg.SenderNick`. -/
structure ChatMessage where
  Message : String
  SenderNick : String
deriving DecidableEq, Repr

/-- What the environment returns to one iteration of the inbound loop: the
clock reading for the stored message, the formatted local time of the log line
and the error of the log-file write. -/
structure InboundEnv where
  now : Time
  logTime : String
  logErr : Option String
deriving DecidableEq, Repr

/-- The `DisplayMessage` built for an inbound event: the structured branch when
`json.Unmarshal` succeeds, the plain-text branch otherwise. -/
def inboundDisplay (msg : ChatMessage) (now : Time) : DisplayMessage :=
  match unmarshalMap msg.Message.data with
  | some parsedMsg =>
    let content := assertString (mapIndex parsedMsg "content".data)
    let userType := assertString (mapIndex parsedMsg "userType".data)
    { Content := content, Sender := getSenderName userType, UserType := userType,
      Timestamp := now }
  | none =>
    { Content := msg.Message, Sender := msg.SenderNick, UserType := "unknown",
      Timestamp := now }

/-- One iteration of the inbound loop: build the message, store it, write the
log line.  The flag is false when the log write failed and `log.Fatal` ended
the process. -/
def inboundStep (msg : ChatMessage) (env : InboundEnv) (w : World) : World × Bool :=
  let displayMsg := inboundDisplay msg env.now
  let w1 := StoreMessage displayMsg w
  let text := "Received message at " ++ env.logTime ++ " from " ++ displayMsg.Sender
    ++ " (" ++ displayMsg.UserType ++ "): " ++ displayMsg.Content ++ "\n"
  let w2 : World := { w1 with effects := w1.effects ++ [Effect.logWrite text] }
  (w2, env.logErr.isNone)

/-! ## Runs of the process -/

/-- The steps that touch the store: an HTTP request to `/send`, an HTTP request
to `/messages`, and an event delivered to the inbound loop. -/
inductive Event where
  | post (r : Request) (env : PostEnv) : Event
  | get (r : Request) : Event
  | inbound (msg : ChatMessage) (env : InboundEnv) : Event
deriving DecidableEq, Repr

/-- One step; the flag is false when the process exited. -/
def step (w : World) : Event → World × Bool
  | Event.post r env => ((PostMessage r env w).1, true)
  | Event.get r => ((GetMessages r w).1, true)
  | Event.inbound msg env => inboundStep msg env w

/-- Run a serialised sequence of steps until it ends or the process exits. -/
def run : World → List Event → World
  | w, [] => w
  | w, e :: es => if (step w e).2 then run (step w e).1 es else (step w e).1

/-- The state at process start: empty store, nothing done yet. -/
def initWorld : World := ⟨[], []⟩

/-- The messages one step adds to the store (read off the step run on the
empty store). -/
def appended (e : Event) : List DisplayMessage := (step initWorld e).1.MessageArr

/-! ## Tie-break of the discovery loop -/

theorem stringLess_irrefl (a : List Nat) : stringLess a a = false := by
  induction a with
  | nil => rfl
  | cons x xs ih => simp [stringLess, ih]

theorem foldl_StoreMessage (msgs : List DisplayMessage) : ∀ w : World,
    (msgs.foldl (fun w m => StoreMessage m w) w).MessageArr = w.MessageArr ++ msgs := by
  induction msgs with
  | nil => intro w; simp
  | cons m ms ih =>
    intro w
    rw [List.foldl_cons, ih]
    simp [StoreMessage]

/-- C5. After any serialised sequence of `StoreMessage` calls the store is the
initial store followed by the appended messages in call order: its length grows
by the number of appends, every appended message occurs exactly as often as it
was appended beyond its initial count, and every previously stored element
stays at its index. -/
theorem append_monotonicity (w : World) (msgs : List DisplayMessage) :
    (msgs.foldl (fun w m => StoreMessage m w) w).MessageArr = w.MessageArr ++ msgs ∧
    (msgs.foldl (fun w m => StoreMessage m w) w).MessageArr.length
      = w.MessageArr.length + msgs.length ∧
    (∀ m, (msgs.foldl (fun w m => StoreMessage m w) w).MessageArr.count m
      = w.MessageArr.count m + msgs.count m) ∧
    (∀ i, i < w.MessageArr.length →
      (msgs.foldl (fun w m => StoreMessage m w) w).MessageArr[i]? = w.MessageArr[i]?) := by
  rw [foldl_StoreMessage]
  refine ⟨rfl, by simp, fun m => by simp, fun i hi => ?_⟩
  exact List.getElem?_append_left hi

/-! ## HTTP bridge -/

theorem GetMessages_get (q : Request) (v : World) (hq : q.Method = "GET") :
    GetMessages q v =
      if v.MessageArr.any (fun m => m.Timestamp.marshalJSONFails) = true then
        (v, httpError (headerSet (enableCORS []) "Content-Type" "application/json")
          "failed to encode messages" 500)
      else (v, { header := headerSet (enableCORS []) "Content-Type" "application/json",
                 status := 200, body := Body.json v.MessageArr }) := by
  unfold GetMessages
  rw [hq]
  rw [if_neg (by decide), if_neg (by decide)]

theorem GetMessages_world (r : Request) (w : World) : (GetMessages r w).1 = w := by
  unfold GetMessages
  simp only
  split_ifs <;> rfl

/-- C4, as stated, fails: a store reached with a clock reading in the year
10000 holds a timestamp the JSON encoder refuses; the GET is then answered with
status 500 and the text `failed to encode messages`, not with the stored
sequence. -/
theorem snapshot_read_counterexample :
    (run initWorld [Event.inbound ⟨"hello", "Alice"⟩
        ⟨⟨253402300800000000000, 0⟩, "t", none⟩]).MessageArr
      = [⟨"hello", "Alice", "unknown", ⟨253402300800000000000, 0⟩⟩] ∧
    (GetMessages ⟨"GET", ""⟩ (run initWorld [Event.inbound ⟨"hello", "Alice"⟩
        ⟨⟨253402300800000000000, 0⟩, "t", none⟩])).2.status = 500 ∧
    (GetMessages ⟨"GET", ""⟩ (run initWorld [Event.inbound ⟨"hello", "Alice"⟩
        ⟨⟨253402300800000000000, 0⟩, "t", none⟩])).2.body
      = Body.text "failed to encode messages\n" := by
  decide

/-- C4, amended. A GET request to `GetMessages` leaves the process state
unchanged for every store.  When the JSON encoder accepts every stored
timestamp (calendar year 0..9999, zone offset under 24 hours) the answer is 200
with the whole stored sequence in insertion order (a message appended just
before the request is the last element of the reply); when it refuses one the
answer is 500 with the text `failed to encode messages`.  In both cases a
second GET issued right after returns the same body. -/
theorem snapshot_read (w : World) (r r2 : Request) (h : r.Method = "GET")
    (h2 : r2.Method = "GET") :
    (GetMessages r w).1 = w ∧
    ((∀ m ∈ w.MessageArr, m.Timestamp.marshalJSONFails = false) →
      (GetMessages r w).2.status = 200 ∧
      (GetMessages r w).2.body = Body.json w.MessageArr ∧
      (∀ m : DisplayMessage, m.Timestamp.marshalJSONFails = false →
        (GetMessages r (StoreMessage m w)).2.body = Body.json (w.MessageArr ++ [m]))) ∧
    ((∃ m ∈ w.MessageArr, m.Timestamp.marshalJSONFails = true) →
      (GetMessages r w).2.status = 500 ∧
      (GetMessages r w).2.body = Body.text "failed to encode messages\n") ∧
    (GetMessages r2 (GetMessages r w).1).2.body = (GetMessages r w).2.body := by
  refine ⟨GetMessages_world r w, ?_, ?_, ?_⟩
  · intro hok
    have hany : ¬ (w.MessageArr.any (fun m => m.Timestamp.marshalJSONFails) = true) := by
      simp only [List.any_eq_true, not_exists, not_and, Bool.not_eq_true]
      exact hok
    rw [GetMessages_get r w h, if_neg hany]
    refine ⟨rfl, rfl, ?_⟩
    intro m hm
    have hany2 : ¬ ((StoreMessage m w).MessageArr.any
        (fun m => m.Timestamp.marshalJSONFails) = true) := by
      simp only [StoreMessage, List.any_eq_true, not_exists, not_and, Bool.not_eq_true,
        List.mem_append, List.mem_singleton]
      intro x hx
      rcases hx with hx | hx
      · exact hok x hx
      · rw [hx]; exact hm
    rw [GetMessages_get r _ h, if_neg hany2]
    rfl
  · intro hbad
    have hany : w.MessageArr.any (fun m => m.Timestamp.marshalJSONFails) = true := by
      simp only [List.any_eq_true]
      exact hbad
    rw [GetMessages_get r w h, if_pos hany]
    exact ⟨rfl, rfl⟩
  · rw [GetMessages_world r w, GetMessages_get r w h, GetMessages_get r2 w h2]

theorem snapshot_read_witness :
    (GetMessages ⟨"GET", ""⟩ ⟨[⟨"a", "Civilian", "civilian", ⟨1, 0⟩⟩], []⟩).2.status = 200 ∧
    (GetMessages ⟨"GET", ""⟩ ⟨[⟨"a", "Civilian", "civilian", ⟨1, 0⟩⟩], []⟩).2.body
      = Body.json (⟨[⟨"a", "Civilian", "civilian", ⟨1, 0⟩⟩], []⟩ : World).MessageArr ∧
    (∀ m : DisplayMessage, m.Timestamp.marshalJSONFails = false →
      (GetMessages ⟨"GET", ""⟩
        (StoreMessage m ⟨[⟨"a", "Civilian", "civilian", ⟨1, 0⟩⟩], []⟩)).2.body
      = Body.json ((⟨[⟨"a", "Civilian", "civilian", ⟨1, 0⟩⟩], []⟩ : World).MessageArr ++ [m])) :=
  (snapshot_read ⟨[⟨"a", "Civilian", "civilian", ⟨1, 0⟩⟩], []⟩ ⟨"GET", ""⟩ ⟨"GET", "x"⟩
    rfl rfl).2.1 (by decide)

/-- The local echo built by `PostMessage` for a decoded request. -/
theorem PostMessage_valid (r : Request) (env : PostEnv) (w : World) (msg : IncomingMsg)
    (hm : r.Method = "POST") (hd : decodeIncomingMsg r.Body.data = (msg, false))
    (hne : msg.Message ≠ "") :
    (PostMessage r env w).1 =
      { MessageArr := w.MessageArr ++
          [⟨msg.Message, getSenderName msg.UserType, msg.UserType, env.now⟩],
        effects := w.effects ++
          [Effect.publish
              (marshalMessageWithType env.shortBF msg.Message msg.UserType env.unixNow),
            Effect.store ⟨msg.Message, getSenderName msg.UserType, msg.UserType, env.now⟩] } ∧
    (PostMessage r env w).2.status = (if env.publishErr = none then 200 else 500) := by
  unfold PostMessage
  rw [hm, if_neg (by decide), if_neg (by decide), hd]
  simp only [Bool.false_eq_true, false_or, if_neg hne, StoreMessage]
  cases env.publishErr <;> simp [httpError]

theorem PostMessage_invalid (r : Request) (env : PostEnv) (w : World)
    (hm : r.Method = "POST")
    (hd : (decodeIncomingMsg r.Body.data).2 = true ∨ (decodeIncomingMsg r.Body.data).1.Message = "") :
    PostMessage r env w = (w, httpError (enableCORS []) "failed to decode" 400) := by
  unfold PostMessage
  rw [hm, if_neg (by decide), if_neg (by decide)]
  rcases h : decodeIncomingMsg r.Body.data with ⟨m, e⟩
  rw [h] at hd
  simp only at hd
  simp only [if_pos hd]

/-- C2. For a POST whose body decodes to an `IncomingMsg` with a non-empty
message, when `cr.Publish` returns an error the reply has status 500 and the
store is the previous store with exactly one `DisplayMessage` appended, carrying
the posted message and the posted userType. -/
theorem local_echo_on_publish_failure (r : Request) (env : PostEnv) (w : World)
    (msg : IncomingMsg) (hm : r.Method = "POST")
    (hd : decodeIncomingMsg r.Body.data = (msg, false)) (hne : msg.Message ≠ "")
    (hp : env.publishErr ≠ none) :
    (PostMessage r env w).2.status = 500 ∧
    (PostMessage r env w).1.MessageArr = w.MessageArr ++
      [⟨msg.Message, getSenderName msg.UserType, msg.UserType, env.now⟩] ∧
    (PostMessage r env w).1.MessageArr.length = w.MessageArr.length + 1 := by
  obtain ⟨h1, h2⟩ := PostMessage_valid r env w msg hm hd hne
  rw [h1, h2, if_neg hp]
  simp

theorem local_echo_on_publish_failure_witness :
    (PostMessage ⟨"POST", "\x7b\"message\":\"hi\",\"userType\":\"team\"\x7d"⟩
        ⟨true, 17, ⟨99, 0⟩, some "no peers"⟩ initWorld).2.status = 500 ∧
    (PostMessage ⟨"POST", "\x7b\"message\":\"hi\",\"userType\":\"team\"\x7d"⟩
        ⟨true, 17, ⟨99, 0⟩, some "no peers"⟩ initWorld).1.MessageArr = initWorld.MessageArr ++
      [⟨(⟨"hi", "team"⟩ : IncomingMsg).Message,
        getSenderName (⟨"hi", "team"⟩ : IncomingMsg).UserType,
        (⟨"hi", "team"⟩ : IncomingMsg).UserType,
        (⟨true, 17, ⟨99, 0⟩, some "no peers"⟩ : PostEnv).now⟩] ∧
    (PostMessage ⟨"POST", "\x7b\"message\":\"hi\",\"userType\":\"team\"\x7d"⟩
        ⟨true, 17, ⟨99, 0⟩, some "no peers"⟩ initWorld).1.MessageArr.length
      = initWorld.MessageArr.length + 1 :=
  local_echo_on_publish_failure ⟨"POST", "\x7b\"message\":\"hi\",\"userType\":\"team\"\x7d"⟩
    ⟨true, 17, ⟨99, 0⟩, some "no peers"⟩ initWorld ⟨"hi", "team"⟩ rfl (by decide) (by decide)
    (by decide)

/-- C3. A POST whose body fails to decode, or decodes with an empty message
(whatever its userType), is answered with status 400; the store is unchanged
and no call is made to any collaborator, in particular none to `Publish`. -/
theorem empty_content_rejection (r : Request) (env : PostEnv) (w : World)
    (hm : r.Method = "POST")
    (hd : (decodeIncomingMsg r.Body.data).2 = true ∨
      (decodeIncomingMsg r.Body.data).1.Message = "") :
    (PostMessage r env w).2.status = 400 ∧
    (PostMessage r env w).1.MessageArr = w.MessageArr ∧
    (PostMessage r env w).1.effects = w.effects ∧
    (∀ p, Effect.publish p ∈ (PostMessage r env w).1.effects → Effect.publish p ∈ w.effects) := by
  rw [PostMessage_invalid r env w hm hd]
  simp [httpError]

theorem empty_content_rejection_witness :
    (PostMessage ⟨"POST", "\x7b\"message\":\"\",\"userType\":\"team\"\x7d"⟩
        ⟨true, 17, ⟨99, 0⟩, none⟩ initWorld).2.status = 400 ∧
    (PostMessage ⟨"POST", "\x7b\"message\":\"\",\"userType\":\"team\"\x7d"⟩
        ⟨true, 17, ⟨99, 0⟩, none⟩ initWorld).1.MessageArr = initWorld.MessageArr ∧
    (PostMessage ⟨"POST", "\x7b\"message\":\"\",\"userType\":\"team\"\x7d"⟩
        ⟨true, 17, ⟨99, 0⟩, none⟩ initWorld).1.effects = initWorld.effects ∧
    (∀ p, Effect.publish p ∈ (PostMessage
        ⟨"POST", "\x7b\"message\":\"\",\"userType\":\"team\"\x7d"⟩
        ⟨true, 17, ⟨99, 0⟩, none⟩ initWorld).1.effects → Effect.publish p ∈ initWorld.effects) :=
  empty_content_rejection ⟨"POST", "\x7b\"message\":\"\",\"userType\":\"team\"\x7d"⟩
    ⟨true, 17, ⟨99, 0⟩, none⟩ initWorld rfl (Or.inr (by decide))

/-- C10, as stated, fails: on a valid POST the first call recorded is the one
to `Publish`, the append to the store comes second. -/
theorem store_before_publish_counterexample :
    (PostMessage ⟨"POST", "\x7b\"message\":\"hi\",\"userType\":\"team\"\x7d"⟩
        ⟨true, 17, ⟨99, 0⟩, none⟩ initWorld).1.effects =
      [Effect.publish "\x7b\"content\":\"hi\",\"timestamp\":17,\"userType\":\"team\"\x7d",
        Effect.store ⟨"hi", "NDRF Team", "team", ⟨99, 0⟩⟩] := by
  decide

/-- C10, amended. On a POST with a decodable body and a non-empty message the
handler makes exactly two calls, in this order: first `Publish` with the wire
payload, then the append of the local echo to the store; the append is made
whatever `Publish` returned. -/
theorem publish_then_store (r : Request) (env : PostEnv) (w : World) (msg : IncomingMsg)
    (hm : r.Method = "POST") (hd : decodeIncomingMsg r.Body.data = (msg, false))
    (hne : msg.Message ≠ "") :
    (PostMessage r env w).1.effects = w.effects ++
      [Effect.publish (marshalMessageWithType env.shortBF msg.Message msg.UserType env.unixNow),
        Effect.store ⟨msg.Message, getSenderName msg.UserType, msg.UserType, env.now⟩] := by
  rw [(PostMessage_valid r env w msg hm hd hne).1]

theorem publish_then_store_witness :
    (PostMessage ⟨"POST", "\x7b\"message\":\"hi\",\"userType\":\"team\"\x7d"⟩
        ⟨true, 17, ⟨99, 0⟩, some "no peers"⟩ initWorld).1.effects = initWorld.effects ++
      [Effect.publish (marshalMessageWithType (⟨true, 17, ⟨99, 0⟩, some "no peers"⟩ : PostEnv).shortBF
          (⟨"hi", "team"⟩ : IncomingMsg).Message (⟨"hi", "team"⟩ : IncomingMsg).UserType
          (⟨true, 17, ⟨99, 0⟩, some "no peers"⟩ : PostEnv).unixNow),
        Effect.store ⟨(⟨"hi", "team"⟩ : IncomingMsg).Message,
          getSenderName (⟨"hi", "team"⟩ : IncomingMsg).UserType,
          (⟨"hi", "team"⟩ : IncomingMsg).UserType,
          (⟨true, 17, ⟨99, 0⟩, some "no peers"⟩ : PostEnv).now⟩] :=
  publish_then_store ⟨"POST", "\x7b\"message\":\"hi\",\"userType\":\"team\"\x7d"⟩
    ⟨true, 17, ⟨99, 0⟩, some "no peers"⟩ initWorld ⟨"hi", "team"⟩ rfl (by decide) (by decide)

/-! ## Inbound loop -/

theorem inboundStep_MessageArr (msg : ChatMessage) (env : InboundEnv) (w : World) :
    (inboundStep msg env w).1.MessageArr = w.MessageArr ++ [inboundDisplay msg env.now] := by
  simp [inboundStep, StoreMessage]

theorem inboundDisplay_legacy (msg : ChatMessage) (now : Time)
    (h : unmarshalMap msg.Message.data = none) :
    inboundDisplay msg now = ⟨msg.Message, msg.SenderNick, "unknown", now⟩ := by
  simp [inboundDisplay, h]

/-! ## Runs -/

theorem PostMessage_cases (r : Request) (env : PostEnv) (w : World) :
    (PostMessage r env w).1 = w ∨
    (r.Method = "POST" ∧ ∃ msg : IncomingMsg, decodeIncomingMsg r.Body.data = (msg, false) ∧
      msg.Message ≠ "" ∧
      (PostMessage r env w).1.MessageArr = w.MessageArr ++
        [⟨msg.Message, getSenderName msg.UserType, msg.UserType, env.now⟩]) := by
  by_cases hm : r.Method = "POST"
  · rcases hd : decodeIncomingMsg r.Body.data with ⟨m, e⟩
    by_cases hbad : e = true ∨ m.Message = ""
    · left
      rw [PostMessage_invalid r env w hm (by rw [hd]; exact hbad)]
    · right
      have he : e = false := by
        cases e
        · rfl
        · exact absurd (Or.inl rfl) hbad
      subst he
      have hne : m.Message ≠ "" := fun h => hbad (Or.inr h)
      refine ⟨hm, m, rfl, hne, ?_⟩
      rw [(PostMessage_valid r env w m hm hd hne).1]
  · left
    unfold PostMessage
    by_cases ho : r.Method = "OPTIONS"
    · rw [if_pos ho]
    · rw [if_neg ho, if_pos hm]

theorem appended_cases (e : Event) (m : DisplayMessage) (h : m ∈ appended e) :
    (∃ r env msg, e = Event.post r env ∧ r.Method = "POST" ∧
      decodeIncomingMsg r.Body.data = (msg, false) ∧ msg.Message ≠ "" ∧
      m = ⟨msg.Message, getSenderName msg.UserType, msg.UserType, env.now⟩) ∨
    (∃ msg env, e = Event.inbound msg env ∧ m = inboundDisplay msg env.now) := by
  cases e with
  | post r env =>
    left
    rcases PostMessage_cases r env initWorld with h1 | ⟨hm, msg, hd, hne, h1⟩
    · simp only [appended, step] at h
      rw [h1] at h
      simp [initWorld] at h
    · simp only [appended, step] at h
      rw [h1] at h
      simp only [initWorld, List.nil_append, List.mem_singleton] at h
      exact ⟨r, env, msg, rfl, hm, hd, hne, h⟩
  | get r =>
    simp [appended, step, GetMessages_world, initWorld] at h
  | inbound msg env =>
    right
    simp only [appended, step, inboundStep_MessageArr, initWorld, List.nil_append,
      List.mem_singleton] at h
    exact ⟨msg, env, rfl, h⟩

theorem step_MessageArr (w : World) (e : Event) :
    (step w e).1.MessageArr = w.MessageArr ++ appended e := by
  cases e with
  | post r env =>
    rcases PostMessage_cases r env w with h1 | ⟨hm, msg, hd, hne, h1⟩
    · have h2 : (PostMessage r env initWorld).1 = initWorld := by
        rcases PostMessage_cases r env initWorld with h2 | ⟨_, msg2, hd2, hne2, _⟩
        · exact h2
        · exfalso
          have hbad := PostMessage_valid r env w msg2 (by assumption) hd2 hne2
          rw [h1] at hbad
          have := congrArg World.MessageArr hbad.1
          simp at this
      simp only [appended, step]
      rw [h1, h2]
      simp [initWorld]
    · have h2 := (PostMessage_valid r env initWorld msg hm hd hne).1
      simp only [appended, step]
      rw [h1, h2]
      simp [initWorld]
  | get r => simp [appended, step, GetMessages_world, initWorld]
  | inbound msg env => simp [appended, step, inboundStep_MessageArr, initWorld]

theorem run_mem (evs : List Event) : ∀ (w : World) (m : DisplayMessage),
    m ∈ (run w evs).MessageArr → m ∈ w.MessageArr ∨ ∃ e ∈ evs, m ∈ appended e := by
  induction evs with
  | nil => intro w m h; exact Or.inl h
  | cons e es ih =>
    intro w m h
    have hstep : m ∈ (step w e).1.MessageArr → m ∈ w.MessageArr ∨ ∃ e2 ∈ e :: es, m ∈ appended e2 := by
      intro h1
      rw [step_MessageArr, List.mem_append] at h1
      rcases h1 with h1 | h1
      · exact Or.inl h1
      · exact Or.inr ⟨e, List.mem_cons_self _ _, h1⟩
    unfold run at h
    split at h
    · rcases ih _ m h with h1 | ⟨e2, he2, h2⟩
      · exact hstep h1
      · exact Or.inr ⟨e2, List.mem_cons_of_mem _ he2, h2⟩
    · exact hstep h

/-- C8, as stated, fails: the inbound payload `{}` is a structured message with
no content field; the content derived from it is empty and the message is
appended to the store all the same. -/
theorem inbound_empty_content_counterexample :
    (inboundDisplay ⟨"\x7b\x7d", "Alice"⟩ ⟨5, 0⟩).Content = "" ∧
    (inboundStep ⟨"\x7b\x7d", "Alice"⟩ ⟨⟨5, 0⟩, "t", none⟩ initWorld).1.MessageArr
      = [⟨"", "Civilian", "", ⟨5, 0⟩⟩] := by
  decide

/-- C8, amended. The inbound loop rejects nothing: every inbound event appends
exactly the `DisplayMessage` derived from its payload, also when the derived
content is empty.  Empty content is rejected by `POST /send` only, so in the
store reached by any run from the empty store, every `DisplayMessage` with
empty content was appended by the inbound loop. -/
theorem inbound_never_rejects :
    (∀ (msg : ChatMessage) (env : InboundEnv) (w : World),
      (inboundStep msg env w).1.MessageArr = w.MessageArr ++ [inboundDisplay msg env.now]) ∧
    (∀ (evs : List Event) (m : DisplayMessage), m ∈ (run initWorld evs).MessageArr →
      m.Content = "" →
      ∃ msg env, Event.inbound msg env ∈ evs ∧ m = inboundDisplay msg env.now) := by
  refine ⟨inboundStep_MessageArr, ?_⟩
  intro evs m hmem hempty
  rcases run_mem evs initWorld m hmem with h | ⟨e, he, h⟩
  · simp [initWorld] at h
  · rcases appended_cases e m h with ⟨r, env, msg, rfl, _, _, hne, hm⟩ | ⟨msg, env, rfl, hm⟩
    · exfalso
      rw [hm] at hempty
      exact hne hempty
    · exact ⟨msg, env, he, hm⟩

/-- C9, as stated, fails: `PostMessage` stores the posted userType unchecked,
so a POST carrying userType `admin` leaves a stored message whose userType is
none of `team`, `civilian`, `unknown`. -/
theorem userType_invariant_counterexample :
    (run initWorld [Event.post
        ⟨"POST", "\x7b\"message\":\"hi\",\"userType\":\"admin\"\x7d"⟩
        ⟨true, 17, ⟨99, 0⟩, none⟩]).MessageArr = [⟨"hi", "Civilian", "admin", ⟨99, 0⟩⟩] ∧
    ¬ ("admin" = "team" ∨ "admin" = "civilian" ∨ "admin" = "unknown") := by
  decide

/-- Where a stored message comes from: the echo of an accepted POST, with the
userType of the body stored as given; a structured inbound payload, with the
userType of the payload stored as given (empty when absent or not a string);
or the legacy inbound path, with userType `unknown`. -/
theorem stored_origin (evs : List Event) (m : DisplayMessage)
    (hmem : m ∈ (run initWorld evs).MessageArr) :
    (∃ r env msg, Event.post r env ∈ evs ∧ r.Method = "POST" ∧
      decodeIncomingMsg r.Body.data = (msg, false) ∧ msg.Message ≠ "" ∧
      m = ⟨msg.Message, getSenderName msg.UserType, msg.UserType, env.now⟩) ∨
    (∃ msg env kvs, Event.inbound msg env ∈ evs ∧ unmarshalMap msg.Message.data = some kvs ∧
      m = ⟨assertString (mapIndex kvs "content".data),
        getSenderName (assertString (mapIndex kvs "userType".data)),
        assertString (mapIndex kvs "userType".data), env.now⟩) ∨
    (∃ msg env, Event.inbound msg env ∈ evs ∧ unmarshalMap msg.Message.data = none ∧
      m = inboundDisplay msg env.now ∧ m.UserType = "unknown") := by
  rcases run_mem evs initWorld m hmem with h | ⟨e, he, h⟩
  · simp [initWorld] at h
  · rcases appended_cases e m h with ⟨r, env, msg, rfl, hm0, hd, hne, hm⟩ | ⟨msg, env, rfl, hm⟩
    · exact Or.inl ⟨r, env, msg, he, hm0, hd, hne, hm⟩
    · right
      rcases hu : unmarshalMap msg.Message.data with _ | kvs
      · right
        refine ⟨msg, env, he, hu, hm, ?_⟩
        rw [hm, inboundDisplay_legacy msg env.now hu]
      · left
        refine ⟨msg, env, kvs, he, hu, ?_⟩
        rw [hm]
        simp [inboundDisplay, hu]

/-- Clock readings the JSON encoder accepts give a store it accepts: when every
step of a run stamps its message with an encodable reading, so is every stored
timestamp. -/
theorem run_timestamps (evs : List Event)
    (hpost : ∀ r env, Event.post r env ∈ evs → env.now.marshalJSONFails = false)
    (hin : ∀ msg env, Event.inbound msg env ∈ evs → env.now.marshalJSONFails = false) :
    ∀ m ∈ (run initWorld evs).MessageArr, m.Timestamp.marshalJSONFails = false := by
  intro m hmem
  rcases stored_origin evs m hmem with ⟨r, env, msg, he, _, _, _, rfl⟩ |
    ⟨msg, env, kvs, he, _, rfl⟩ | ⟨msg, env, he, hu, hm, _⟩
  · exact hpost r env he
  · exact hin msg env he
  · rw [hm, inboundDisplay_legacy msg env.now hu]
    exact hin msg env he

/-- C9, amended. Starting from the empty store, after every sequence of
`POST /send` requests and inbound events in which every accepted POST (method
POST, decodable body, non-empty message) and every structured inbound payload
carries userType `team` or `civilian`, every stored `DisplayMessage` has
userType `team`, `civilian` or `unknown`, and `unknown` occurs only on messages
produced by the legacy inbound path. -/
theorem userType_invariant (evs : List Event)
    (hpost : ∀ r env msg, Event.post r env ∈ evs → r.Method = "POST" →
      decodeIncomingMsg r.Body.data = (msg, false) → msg.Message ≠ "" →
      msg.UserType = "team" ∨ msg.UserType = "civilian")
    (hin : ∀ msg env kvs, Event.inbound msg env ∈ evs →
      unmarshalMap msg.Message.data = some kvs →
      assertString (mapIndex kvs "userType".data) = "team" ∨
      assertString (mapIndex kvs "userType".data) = "civilian") :
    ∀ m ∈ (run initWorld evs).MessageArr,
      (m.UserType = "team" ∨ m.UserType = "civilian" ∨ m.UserType = "unknown") ∧
      (m.UserType = "unknown" → ∃ msg env, Event.inbound msg env ∈ evs ∧
        unmarshalMap msg.Message.data = none ∧ m = inboundDisplay msg env.now) := by
  intro m hmem
  rcases stored_origin evs m hmem with ⟨r, env, msg, he, hm0, hd, hne, rfl⟩ |
    ⟨msg, env, kvs, he, hu, rfl⟩ | ⟨msg, env, he, hu, hm, hk⟩
  · have h1 := hpost r env msg he hm0 hd hne
    constructor
    · rcases h1 with h1 | h1
      · exact Or.inl h1
      · exact Or.inr (Or.inl h1)
    · intro hunk
      simp only at hunk
      rw [hunk] at h1
      exact absurd h1 (by decide)
  · have h1 := hin msg env kvs he hu
    constructor
    · rcases h1 with h1 | h1
      · exact Or.inl h1
      · exact Or.inr (Or.inl h1)
    · intro hunk
      simp only at hunk
      rw [hunk] at h1
      exact absurd h1 (by decide)
  · exact ⟨Or.inr (Or.inr hk), fun _ => ⟨msg, env, he, hu, hm⟩⟩

theorem userType_invariant_witness :
    ((⟨"hi", "NDRF Team", "team", ⟨99, 0⟩⟩ : DisplayMessage).UserType = "team" ∨
      (⟨"hi", "NDRF Team", "team", ⟨99, 0⟩⟩ : DisplayMessage).UserType = "civilian" ∨
      (⟨"hi", "NDRF Team", "team", ⟨99, 0⟩⟩ : DisplayMessage).UserType = "unknown") ∧
    ((⟨"hi", "NDRF Team", "team", ⟨99, 0⟩⟩ : DisplayMessage).UserType = "unknown" →
      ∃ msg env,
        Event.inbound msg env ∈ [Event.post
          ⟨"POST", "\x7b\"message\":\"hi\",\"userType\":\"team\"\x7d"⟩
            ⟨true, 17, ⟨99, 0⟩, none⟩,
          Event.post ⟨"OPTIONS", ""⟩ ⟨true, 17, ⟨99, 0⟩, none⟩,
          Event.post ⟨"POST", "\x7b\"message\":\"\",\"userType\":\"admin\"\x7d"⟩
            ⟨true, 17, ⟨99, 0⟩, none⟩,
          Event.inbound ⟨"need water at gate 3", "Alice"⟩ ⟨⟨5, 0⟩, "t", none⟩] ∧
        unmarshalMap msg.Message.data = none ∧
        (⟨"hi", "NDRF Team", "team", ⟨99, 0⟩⟩ : DisplayMessage) = inboundDisplay msg env.now) :=
  userType_invariant [Event.post
      ⟨"POST", "\x7b\"message\":\"hi\",\"userType\":\"team\"\x7d"⟩ ⟨true, 17, ⟨99, 0⟩, none⟩,
      Event.post ⟨"OPTIONS", ""⟩ ⟨true, 17, ⟨99, 0⟩, none⟩,
      Event.post ⟨"POST", "\x7b\"message\":\"\",\"userType\":\"admin\"\x7d"⟩
        ⟨true, 17, ⟨99, 0⟩, none⟩,
      Event.inbound ⟨"need water at gate 3", "Alice"⟩ ⟨⟨5, 0⟩, "t", none⟩]
    (by
      intro r env msg h hm hd hne
      simp only [List.mem_cons, Event.post.injEq, List.mem_singleton, reduceCtorEq,
        or_false, List.not_mem_nil] at h
      rcases h with ⟨rfl, rfl⟩ | ⟨rfl, rfl⟩ | ⟨rfl, rfl⟩
      · have hd2 : decodeIncomingMsg
            (⟨"POST", "\x7b\"message\":\"hi\",\"userType\":\"team\"\x7d"⟩ : Request).Body.data
            = (⟨"hi", "team"⟩, false) := by decide
        rw [hd2] at hd
        have := (Prod.mk.inj hd).1
        rw [← this]
        exact Or.inl rfl
      · exact absurd hm (by decide)
      · have hd2 : decodeIncomingMsg
            (⟨"POST", "\x7b\"message\":\"\",\"userType\":\"admin\"\x7d"⟩ : Request).Body.data
            = (⟨"", "admin"⟩, false) := by decide
        rw [hd2] at hd
        have := (Prod.mk.inj hd).1
        rw [← this] at hne
        exact absurd rfl hne)
    (by
      intro msg env kvs h hu
      simp only [List.mem_cons, Event.inbound.injEq, List.mem_singleton, reduceCtorEq,
        false_or, or_false, List.not_mem_nil] at h
      obtain ⟨rfl, rfl⟩ := h
      have hn : unmarshalMap
          (⟨"need water at gate 3", "Alice"⟩ : ChatMessage).Message.data = none :=
        Option.isNone_iff_eq_none.1 (by decide)
      rw [hn] at hu
      exact absurd hu (by simp))
    ⟨"hi", "NDRF Team", "team", ⟨99, 0⟩⟩ (by decide)

/-! ## Round trip of the wire payload -/

theorem hex4_byte : ∀ n, n < 128 →
    hex4 '0' '0' (hexDigit (n / 16)) (hexDigit (n % 16)) = some n := by
  decide

theorem hex4_separator : ∀ n, n < 16 → hex4 '2' '0' '2' (hexDigit n) = some (8224 + n) := by
  decide

theorem char_eq_of_toNat (c : Char) (n : Nat) (h : c.toNat = n) : c = Char.ofNat n := by
  rw [← h, Char.ofNat_toNat]

theorem scanString_simple (e ch : Char) (tail : List Char) (he : e ≠ 'u')
    (hu : unescape e = some ch) :
    scanString none ('\\' :: e :: tail) = emit [ch] (scanString none tail) := by
  rw [scanString.eq_def]
  simp [he, hu, pendPrefix]

theorem scanString_u (a b c d : Char) (v : Nat) (tail : List Char)
    (hv : hex4 a b c d = some v) (hlt : v < 55296) :
    scanString none ('\\' :: 'u' :: a :: b :: c :: d :: tail)
      = emit [Char.ofNat v] (scanString none tail) := by
  rw [scanString.eq_def]
  have h1 : isHighSurrogate v = false := by simp [isHighSurrogate]; omega
  have h2 : isLowSurrogate v = false := by simp [isLowSurrogate]; omega
  simp [hv, h1, h2, pendPrefix]

theorem scanString_plain (c : Char) (tail : List Char) (h1 : c ≠ '"') (h2 : c ≠ '\\')
    (h3 : ¬ c.toNat < 32) :
    scanString none (c :: tail) = emit [c] (scanString none tail) := by
  rw [scanString.eq_def]
  simp [h1, h2, h3, pendPrefix]

theorem scanString_escapeChar (b : Bool) (c : Char) (tail : List Char) :
    scanString none (escapeChar b c ++ tail) = emit [c] (scanString none tail) := by
  unfold escapeChar
  split_ifs with h1 h2 h3 h4 h5 h6 h7 h8
  · rcases h1 with rfl | rfl
    · exact scanString_simple _ _ tail (by decide) (by decide)
    · exact scanString_simple _ _ tail (by decide) (by decide)
  · subst h2; exact scanString_simple _ _ tail (by decide) (by decide)
  · subst h3; exact scanString_simple _ _ tail (by decide) (by decide)
  · subst h4; exact scanString_simple _ _ tail (by decide) (by decide)
  · rw [char_eq_of_toNat c 8 h5.2]
    exact scanString_simple _ _ tail (by decide) (by decide)
  · rw [char_eq_of_toNat c 12 h6.2]
    exact scanString_simple _ _ tail (by decide) (by decide)
  · have hn : c.toNat < 128 := by
      rcases h7 with h | rfl | rfl | rfl
      · omega
      · decide
      · decide
      · decide
    have := scanString_u '0' '0' _ _ c.toNat tail (hex4_byte c.toNat hn) (by omega)
    rw [Char.ofNat_toNat] at this
    exact this
  · have hv : hex4 '2' '0' '2' (hexDigit (c.toNat % 16)) = some c.toNat := by
      rw [hex4_separator _ (Nat.mod_lt _ (by decide))]
      rcases h8 with h | h <;> rw [h]
    have := scanString_u '2' '0' '2' _ c.toNat tail hv (by rcases h8 with h | h <;> omega)
    rw [Char.ofNat_toNat] at this
    exact this
  · have h3 : ¬ c.toNat < 32 := fun h => h7 (Or.inl h)
    exact scanString_plain c tail (fun h => h1 (Or.inr h)) (fun h => h1 (Or.inl h)) h3

theorem scanString_escapeString (b : Bool) (s rest : List Char) :
    scanString none (escapeString b s ++ '"' :: rest) = some (s, rest) := by
  induction s with
  | nil => rw [escapeString, List.nil_append, scanString.eq_def]; simp [pendPrefix]
  | cons c cs ih =>
    rw [escapeString, List.append_assoc, scanString_escapeChar, ih]
    rfl

theorem parseValue_encodeString (cr b : Bool) (f d : Nat) (s rest : List Char) :
    parseValue cr (f + 1) d (encodeString b s ++ rest) = some (JValue.str s, rest) := by
  have h : encodeString b s ++ rest = '"' :: (escapeString b s ++ '"' :: rest) := by
    simp [encodeString]
  rw [h, parseValue.eq_def]
  simp [parseScalar, scanString_escapeString]

theorem digitChar_spec : ∀ k, k < 10 →
    isDigit (Nat.digitChar k) = true ∧ (Nat.digitChar k).toNat - 48 = k ∧
    (Nat.digitChar k = '0' → k = 0) := by
  decide

theorem digitsVal_append (l : List Char) (c : Char) :
    digitsVal (l ++ [c]) = digitsVal l * 10 + (c.toNat - 48) := by
  simp [digitsVal, List.foldl_append]

theorem formatDigits_acc : ∀ (fuel n : Nat) (acc : List Char),
    formatDigits fuel n acc = formatDigits fuel n [] ++ acc := by
  intro fuel
  induction fuel with
  | zero => intro n acc; simp [formatDigits]
  | succ f ih =>
    intro n acc
    rw [formatDigits, formatDigits]
    split_ifs with h
    · simp
    · rw [ih (n / 10) (Nat.digitChar (n % 10) :: acc), ih (n / 10) [Nat.digitChar (n % 10)]]
      simp

theorem formatDigits_spec : ∀ (fuel n : Nat), n < 10 ^ (fuel + 1) →
    ∃ d ds, formatDigits (fuel + 1) n [] = d :: ds ∧ isDigit d = true ∧
      (∀ x ∈ ds, isDigit x = true) ∧ (d = '0' → n = 0 ∧ ds = []) ∧ digitsVal (d :: ds) = n := by
  intro fuel
  induction fuel with
  | zero =>
    intro n hn
    have hn10 : n < 10 := by simpa using hn
    obtain ⟨h1, h2, h3⟩ := digitChar_spec n hn10
    refine ⟨Nat.digitChar n, [], ?_, h1, by simp, fun h => ⟨h3 h, rfl⟩, ?_⟩
    · simp [formatDigits, hn10]
    · simpa [digitsVal] using h2
  | succ f ih =>
    intro n hn
    by_cases hn10 : n < 10
    · obtain ⟨h1, h2, h3⟩ := digitChar_spec n hn10
      refine ⟨Nat.digitChar n, [], ?_, h1, by simp, fun h => ⟨h3 h, rfl⟩, ?_⟩
      · rw [formatDigits, if_pos hn10]
      · simpa [digitsVal] using h2
    · have hdiv : n / 10 < 10 ^ (f + 1) := by
        apply Nat.div_lt_of_lt_mul
        rw [pow_succ] at hn
        omega
      obtain ⟨d, ds, he, hd, hds, hz, hv⟩ := ih (n / 10) hdiv
      obtain ⟨h1, h2, _⟩ := digitChar_spec (n % 10) (Nat.mod_lt _ (by decide))
      refine ⟨d, ds ++ [Nat.digitChar (n % 10)], ?_, hd, ?_, ?_, ?_⟩
      · rw [formatDigits, if_neg hn10, formatDigits_acc, he]
        simp
      · intro x hx
        rcases List.mem_append.1 hx with hx | hx
        · exact hds x hx
        · rw [List.mem_singleton.1 hx]; exact h1
      · intro h0
        have := (hz h0).1
        omega
      · have : d :: (ds ++ [Nat.digitChar (n % 10)]) = (d :: ds) ++ [Nat.digitChar (n % 10)] := rfl
        rw [this, digitsVal_append, hv, h2]
        omega

theorem formatNat_spec (n : Nat) :
    ∃ d ds, formatNat n = d :: ds ∧ isDigit d = true ∧
      (∀ x ∈ ds, isDigit x = true) ∧ (d = '0' → n = 0 ∧ ds = []) ∧ digitsVal (d :: ds) = n := by
  apply formatDigits_spec
  exact Nat.lt_of_lt_of_le (Nat.lt_pow_self (by decide : 1 < 10) n)
    (Nat.pow_le_pow_right (by decide) (Nat.le_succ n))

theorem spanDigits_append (ds : List Char) (c : Char) (rest : List Char)
    (hds : ∀ x ∈ ds, isDigit x = true) (hc : isDigit c = false) :
    spanDigits (ds ++ c :: rest) = (ds, c :: rest) := by
  induction ds with
  | nil => simp [spanDigits, hc]
  | cons x xs ih =>
    have hx : isDigit x = true := hds x (List.mem_cons_self _ _)
    have ih2 := ih (fun y hy => hds y (List.mem_cons_of_mem _ hy))
    simp [spanDigits, hx, ih2]

theorem scanInt_digits (neg : Bool) (d : Char) (ds : List Char) (rest : List Char)
    (hd : isDigit d = true) (hds : ∀ x ∈ ds, isDigit x = true) (hz : d = '0' → ds = []) :
    scanInt neg (d :: ds ++ ',' :: rest) = some (⟨neg, d :: ds, [], none⟩, ',' :: rest) := by
  have hspan := spanDigits_append ds ',' rest hds (by decide)
  unfold scanInt
  by_cases h0 : d = '0'
  · have := hz h0
    subst this
    subst h0
    simp [scanFrac, scanExp]
  · simp [h0, hd, hspan, scanFrac, scanExp]

theorem isDigit_head (c : Char) (h : isDigit c = true) :
    isSpace c = false ∧ c ≠ '{' ∧ c ≠ '[' ∧ c ≠ '"' ∧ c ≠ 't' ∧ c ≠ 'f' ∧ c ≠ 'n' ∧ c ≠ '-' := by
  have hb : 48 ≤ c.toNat ∧ c.toNat ≤ 57 := by simpa [isDigit] using h
  have key : ∀ x : Char, ¬ (48 ≤ x.toNat ∧ x.toNat ≤ 57) → c ≠ x := by
    intro x hx hcx
    exact hx (hcx ▸ hb)
  refine ⟨?_, key _ (by decide), key _ (by decide), key _ (by decide), key _ (by decide),
    key _ (by decide), key _ (by decide), key _ (by decide)⟩
  simp [isSpace, key ' ' (by decide), key '\t' (by decide), key '\r' (by decide),
    key '\n' (by decide)]

theorem overflows_int (neg : Bool) (ds : List Char) (h : digitsVal ds < float64Limit) :
    NumLit.overflows ⟨neg, ds, [], none⟩ = false := by
  simp [NumLit.overflows]
  intro _
  exact h

set_option exponentiation.threshold 1100 in
theorem int64_lt_float64Limit (n : Nat) (h : n ≤ 2 ^ 63) : n < float64Limit := by
  have h1 : (2 : Nat) ^ 63 < 2 ^ 970 := Nat.pow_lt_pow_right (by decide) (by decide)
  have h2 : (2 : Nat) ^ 970 * 2 ^ 54 = 2 ^ 1024 := by rw [← pow_add]
  have h3 : (2 : Nat) ≤ 2 ^ 54 := by decide
  have h4 : (2 : Nat) ^ 970 * 2 ≤ 2 ^ 970 * 2 ^ 54 := Nat.mul_le_mul_left _ h3
  unfold float64Limit
  generalize (2 : Nat) ^ 970 = a at *
  generalize (2 : Nat) ^ 1024 = c at *
  generalize (2 : Nat) ^ 63 = e at *
  omega

theorem parseValue_formatInt (f d : Nat) (ts : Int) (rest : List Char)
    (hts : ts.natAbs ≤ 2 ^ 63) :
    parseValue true (f + 1) d (formatInt ts ++ ',' :: rest)
      = some (JValue.number ⟨decide (ts < 0), formatNat ts.natAbs, [], none⟩, ',' :: rest) := by
  obtain ⟨d0, ds, he, hd, hds, hz, hv⟩ := formatNat_spec ts.natAbs
  obtain ⟨_, h1, h2, h3, h4, h5, h6, h7⟩ := isDigit_head d0 hd
  have hov : NumLit.overflows ⟨decide (ts < 0), d0 :: ds, [], none⟩ = false :=
    overflows_int _ _ (by rw [hv]; exact int64_lt_float64Limit _ hts)
  have hscan := fun neg => scanInt_digits neg d0 ds rest hd hds (fun h => (hz h).2)
  unfold formatInt
  rw [he]
  by_cases hneg : ts < 0
  · rw [if_pos hneg, parseValue.eq_def]
    simp only [List.cons_append]
    rw [if_neg (by decide), if_neg (by decide)]
    unfold parseScalar
    rw [if_neg (by decide), if_neg (by decide), if_neg (by decide), if_neg (by decide)]
    have hs : scanNumber ('-' :: d0 :: (ds ++ ',' :: rest))
        = some (⟨true, d0 :: ds, [], none⟩, ',' :: rest) := by
      unfold scanNumber
      simpa using hscan true
    simp only [hneg, decide_True] at hov
    simp [hs, hov, hneg]
  · rw [if_neg hneg, parseValue.eq_def]
    simp only [List.cons_append]
    rw [if_neg h1, if_neg h2]
    unfold parseScalar
    rw [if_neg h3, if_neg h4, if_neg h5, if_neg h6]
    have hs : scanNumber (d0 :: (ds ++ ',' :: rest))
        = some (⟨false, d0 :: ds, [], none⟩, ',' :: rest) := by
      unfold scanNumber
      simpa [h7] using hscan false
    simp only [hneg, decide_False] at hov
    simp [hs, hov, hneg]

theorem skipWS_encodeString (b : Bool) (s rest : List Char) :
    skipWS (encodeString b s ++ rest) = encodeString b s ++ rest := by
  simp [encodeString, skipWS, isSpace]

theorem skipWS_formatInt (ts : Int) (rest : List Char) :
    skipWS (formatInt ts ++ rest) = formatInt ts ++ rest := by
  obtain ⟨d0, ds, he, hd, -⟩ := formatNat_spec ts.natAbs
  have := (isDigit_head d0 hd).1
  unfold formatInt
  split_ifs
  · simp [skipWS, isSpace]
  · rw [he]
    simp [skipWS, this]

/-- An object member with an encoded key, followed by a comma and further
members. -/
theorem parseMembers_more (cr b : Bool) (f d : Nat) (k X Y Z : List Char) (v : JValue)
    (kvs : List (List Char × JValue))
    (hX : skipWS X = X)
    (hv : parseValue cr f d X = some (v, ',' :: Y))
    (hY : skipWS Y = Y)
    (hrest : parseMembers cr f d Y = some (kvs, Z)) :
    parseMembers cr (f + 1) d (encodeString b k ++ ':' :: X) = some ((k, v) :: kvs, Z) := by
  have h : encodeString b k ++ ':' :: X = '"' :: (escapeString b k ++ '"' :: ':' :: X) := by
    simp [encodeString]
  rw [h, parseMembers.eq_def]
  simp [scanString_escapeString, skipWS, isSpace, hX, hv, hY, hrest]

/-- The last object member, followed by the closing brace. -/
theorem parseMembers_last (cr b : Bool) (f d : Nat) (k X Z : List Char) (v : JValue)
    (hX : skipWS X = X)
    (hv : parseValue cr f d X = some (v, '}' :: Z)) :
    parseMembers cr (f + 1) d (encodeString b k ++ ':' :: X) = some ([(k, v)], Z) := by
  have h : encodeString b k ++ ':' :: X = '"' :: (escapeString b k ++ '"' :: ':' :: X) := by
    simp [encodeString]
  rw [h, parseMembers.eq_def]
  simp [scanString_escapeString, skipWS, isSpace, hX, hv]

theorem parseValue_object (cr b : Bool) (f : Nat) (k t Z : List Char)
    (kvs : List (List Char × JValue))
    (h : parseMembers cr f 1 (encodeString b k ++ t) = some (kvs, Z)) :
    parseValue cr (f + 1) 0 ('{' :: (encodeString b k ++ t)) = some (JValue.object kvs, Z) := by
  have hq : encodeString b k ++ t = '"' :: (escapeString b k ++ '"' :: t) := by
    simp [encodeString]
  rw [hq] at h ⊢
  rw [parseValue.eq_def]
  simp [skipWS, isSpace, maxNestingDepth, h]

theorem unmarshalMap_marshal (b : Bool) (content userType : String) (ts : Int)
    (hts : ts.natAbs ≤ 2 ^ 63) :
    unmarshalMap (marshalMessageWithType b content userType ts).data
      = some [("content".data, JValue.str content.data),
          ("timestamp".data, JValue.number ⟨decide (ts < 0), formatNat ts.natAbs, [], none⟩),
          ("userType".data, JValue.str userType.data)] := by
  have key : ∀ F : Nat, parseValue true (F + 5) 0
      (marshalMessageWithType b content userType ts).data
      = some (JValue.object [("content".data, JValue.str content.data),
          ("timestamp".data, JValue.number ⟨decide (ts < 0), formatNat ts.natAbs, [], none⟩),
          ("userType".data, JValue.str userType.data)], []) := by
    intro F
    have m3 := parseMembers_last true b (F + 1) 1 "userType".data
      (encodeString b userType.data ++ ['}']) [] (JValue.str userType.data)
      (skipWS_encodeString _ _ _) (parseValue_encodeString _ _ _ _ _ _)
    have m2 := parseMembers_more true b (F + 2) 1 "timestamp".data
      (formatInt ts ++ ',' :: (encodeString b "userType".data ++ ':' ::
        (encodeString b userType.data ++ ['}']))) _ [] _ _
      (skipWS_formatInt _ _) (parseValue_formatInt _ _ ts _ hts)
      (skipWS_encodeString _ _ _) m3
    have m1 := parseMembers_more true b (F + 3) 1 "content".data
      (encodeString b content.data ++ ',' :: (encodeString b "timestamp".data ++ ':' ::
        (formatInt ts ++ ',' :: (encodeString b "userType".data ++ ':' ::
        (encodeString b userType.data ++ ['}']))))) _ [] _ _
      (skipWS_encodeString _ _ _) (parseValue_encodeString _ _ _ _ _ _)
      (skipWS_encodeString _ _ _) m2
    exact parseValue_object true b (F + 4) _ _ _ _ m1
  unfold unmarshalMap
  have hlen : ∃ F, (marshalMessageWithType b content userType ts).data.length + 1 = F + 5 := by
    refine ⟨(marshalMessageWithType b content userType ts).data.length - 4, ?_⟩
    have : 4 ≤ (marshalMessageWithType b content userType ts).data.length := by
      simp [marshalMessageWithType, encodeString]
      omega
    omega
  obtain ⟨F, hF⟩ := hlen
  have hsk : skipWS (marshalMessageWithType b content userType ts).data
      = (marshalMessageWithType b content userType ts).data := by
    simp [marshalMessageWithType, skipWS, isSpace]
  rw [hF, hsk, key F]
  simp [skipWS]

theorem inboundDisplay_marshal (b : Bool) (content userType nick : String) (ts : Int)
    (now : Time) (hts : ts.natAbs ≤ 2 ^ 63) :
    inboundDisplay ⟨marshalMessageWithType b content userType ts, nick⟩ now
      = ⟨content, getSenderName userType, userType, now⟩ := by
  unfold inboundDisplay
  rw [unmarshalMap_marshal b content userType ts hts]
  simp [mapIndex, assertString]

/-- C6. For every text and every `int64` timestamp, the payload that
`PostMessage` marshals from (text, `team`) is decoded by the structured branch
of the inbound loop to content = text, sender `NDRF Team`, userType `team`, and
the payload marshalled from (text, `civilian`) to content = text, sender
`Civilian`, userType `civilian`; the timestamp of the payload does not show in
the result, and neither does the release-dependent spelling of the escapes. -/
theorem normalizer_round_trip (shortBF : Bool) (text nick : String) (ts : Int) (now : Time)
    (hts : -(2 : Int) ^ 63 ≤ ts ∧ ts < 2 ^ 63) :
    inboundDisplay ⟨marshalMessageWithType shortBF text "team" ts, nick⟩ now
      = ⟨text, "NDRF Team", "team", now⟩ ∧
    inboundDisplay ⟨marshalMessageWithType shortBF text "civilian" ts, nick⟩ now
      = ⟨text, "Civilian", "civilian", now⟩ := by
  have h : ts.natAbs ≤ 2 ^ 63 := by omega
  exact ⟨inboundDisplay_marshal shortBF text "team" nick ts now h,
    inboundDisplay_marshal shortBF text "civilian" nick ts now h⟩

theorem normalizer_round_trip_witness :
    inboundDisplay ⟨marshalMessageWithType true "road <A4> blocked\n" "team" 1700000000,
        "Alice"⟩ ⟨5, 0⟩ = ⟨"road <A4> blocked\n", "NDRF Team", "team", ⟨5, 0⟩⟩ ∧
    inboundDisplay ⟨marshalMessageWithType true "road <A4> blocked\n" "civilian" 1700000000,
        "Alice"⟩ ⟨5, 0⟩ = ⟨"road <A4> blocked\n", "Civilian", "civilian", ⟨5, 0⟩⟩ :=
  normalizer_round_trip true "road <A4> blocked\n" "Alice" 1700000000 ⟨5, 0⟩ (by decide)

/-! ## The recursion bound of the parser is never the reason for a failure -/

theorem skipWS_length_le (cs : List Char) : (skipWS cs).length ≤ cs.length := by
  induction cs with
  | nil => simp [skipWS]
  | cons c cs ih =>
    rw [skipWS]
    split_ifs
    · simp only [List.length_cons]; omega
    · exact Nat.le_refl _

theorem emit_eq_some (pre : List Char) (r : Option (List Char × List Char))
    (s rest : List Char) (h : emit pre r = some (s, rest)) : ∃ s2, r = some (s2, rest) := by
  cases r with
  | none => simp [emit] at h
  | some p =>
    obtain ⟨s2, rest2⟩ := p
    simp only [emit, Option.some.injEq, Prod.mk.injEq] at h
    exact ⟨s2, by rw [h.2]⟩

theorem scanString_length : ∀ (n : Nat) (pend : Option Nat) (cs s rest : List Char),
    cs.length ≤ n → scanString pend cs = some (s, rest) → rest.length < cs.length := by
  intro n
  induction n with
  | zero =>
    intro pend cs s rest hn h
    have : cs = [] := List.length_eq_zero.1 (Nat.le_zero.1 hn)
    subst this
    simp [scanString] at h
  | succ n ih =>
    intro pend cs s rest hn h
    cases cs with
    | nil => simp [scanString] at h
    | cons c tl =>
      rw [scanString.eq_def] at h
      simp only at h
      simp only [List.length_cons] at hn ⊢
      split_ifs at h with h1 h2 h3
      · simp only [Option.some.injEq, Prod.mk.injEq] at h
        rw [← h.2]; omega
      · cases tl with
        | nil => simp at h
        | cons e rest2 =>
          simp only at h
          simp only [List.length_cons] at hn ⊢
          split_ifs at h with h4
          · match rest2, h with
            | a :: b :: c2 :: d :: rest3, h =>
              simp only at h
              simp only [List.length_cons] at hn ⊢
              cases hv : hex4 a b c2 d with
              | none => rw [hv] at h; simp at h
              | some v =>
                rw [hv] at h
                simp only at h
                split_ifs at h
                · obtain ⟨s2, hs⟩ := emit_eq_some _ _ _ _ h
                  have := ih _ _ _ _ (by omega) hs
                  omega
                · cases pend with
                  | none =>
                    obtain ⟨s2, hs⟩ := emit_eq_some _ _ _ _ h
                    have := ih _ _ _ _ (by omega) hs
                    omega
                  | some hh =>
                    obtain ⟨s2, hs⟩ := emit_eq_some _ _ _ _ h
                    have := ih _ _ _ _ (by omega) hs
                    omega
                · obtain ⟨s2, hs⟩ := emit_eq_some _ _ _ _ h
                  have := ih _ _ _ _ (by omega) hs
                  omega
            | [], h => simp at h
            | [_], h => simp at h
            | [_, _], h => simp at h
            | [_, _, _], h => simp at h
          · cases hu : unescape e with
            | none => rw [hu] at h; simp at h
            | some ch =>
              rw [hu] at h
              obtain ⟨s2, hs⟩ := emit_eq_some _ _ _ _ h
              have := ih _ _ _ _ (by omega) hs
              omega
      · obtain ⟨s2, hs⟩ := emit_eq_some _ _ _ _ h
        have := ih _ _ _ _ (by omega) hs
        omega

theorem spanDigits_length (cs : List Char) : (spanDigits cs).2.length ≤ cs.length := by
  induction cs with
  | nil => simp [spanDigits]
  | cons c cs ih =>
    rw [spanDigits]
    split_ifs
    · simp only [List.length_cons]; omega
    · exact Nat.le_refl _

theorem scanExp_length (neg : Bool) (int frac cs : List Char) (n : NumLit) (rest : List Char)
    (h : scanExp neg int frac cs = some (n, rest)) : rest.length ≤ cs.length := by
  unfold scanExp at h
  cases cs with
  | nil =>
    simp only [Option.some.injEq, Prod.mk.injEq] at h
    rw [← h.2]
  | cons c r =>
    simp only at h
    split_ifs at h with h1
    · cases r with
      | nil => simp at h
      | cons s r2 =>
        simp only at h
        split_ifs at h with h2
        · have hl := spanDigits_length r2
          rcases hsp : spanDigits r2 with ⟨ds, r3⟩
          rw [hsp] at h hl
          cases ds with
          | nil => simp at h
          | cons d ds =>
            simp only [Option.some.injEq, Prod.mk.injEq] at h
            rw [← h.2]
            simp only [List.length_cons]
            simp only at hl
            omega
        · have hl := spanDigits_length (s :: r2)
          rcases hsp : spanDigits (s :: r2) with ⟨ds, r3⟩
          rw [hsp] at h hl
          cases ds with
          | nil => simp at h
          | cons d ds =>
            simp only [Option.some.injEq, Prod.mk.injEq] at h
            rw [← h.2]
            simp only [List.length_cons] at hl ⊢
            omega
    · simp only [Option.some.injEq, Prod.mk.injEq] at h
      rw [← h.2]

theorem scanFrac_length (neg : Bool) (int cs : List Char) (n : NumLit) (rest : List Char)
    (h : scanFrac neg int cs = some (n, rest)) : rest.length ≤ cs.length := by
  unfold scanFrac at h
  cases cs with
  | nil =>
    simp only [Option.some.injEq, Prod.mk.injEq] at h
    rw [← h.2]
  | cons c r =>
    simp only at h
    split_ifs at h with h1
    · have hl := spanDigits_length r
      rcases hsp : spanDigits r with ⟨ds, r2⟩
      rw [hsp] at h hl
      cases ds with
      | nil => simp at h
      | cons d ds =>
        simp only at h hl
        have := scanExp_length _ _ _ _ _ _ h
        simp only [List.length_cons]
        omega
    · exact scanExp_length _ _ _ _ _ _ h

theorem scanInt_length (neg : Bool) (cs : List Char) (n : NumLit) (rest : List Char)
    (h : scanInt neg cs = some (n, rest)) : rest.length < cs.length := by
  unfold scanInt at h
  cases cs with
  | nil => simp at h
  | cons d r =>
    simp only at h
    simp only [List.length_cons]
    split_ifs at h with h1 h2
    · have := scanFrac_length _ _ _ _ _ h
      omega
    · have := scanFrac_length _ _ _ _ _ h
      have := spanDigits_length r
      omega

theorem scanNumber_length (cs : List Char) (n : NumLit) (rest : List Char)
    (h : scanNumber cs = some (n, rest)) : rest.length < cs.length := by
  unfold scanNumber at h
  cases cs with
  | nil => simp at h
  | cons c r =>
    simp only at h
    split_ifs at h
    · have := scanInt_length _ _ _ _ h
      simp only [List.length_cons]
      omega
    · exact scanInt_length _ _ _ _ h

theorem stripPrefix_length : ∀ (p cs r : List Char), stripPrefix p cs = some r →
    r.length ≤ cs.length
  | [], cs, r, h => by
    simp only [stripPrefix, Option.some.injEq] at h
    rw [h]
  | _ :: _, [], r, h => by simp [stripPrefix] at h
  | p :: ps, c :: cs, r, h => by
    rw [stripPrefix] at h
    split_ifs at h
    have := stripPrefix_length ps cs r h
    simp only [List.length_cons]
    omega

theorem parseScalar_length (cr : Bool) (c : Char) (rest : List Char) (v : JValue)
    (r : List Char) (h : parseScalar cr c rest = some (v, r)) : r.length ≤ rest.length := by
  unfold parseScalar at h
  split_ifs at h
  · cases hs : scanString none rest with
    | none => rw [hs] at h; simp at h
    | some p =>
      obtain ⟨s, rest2⟩ := p
      rw [hs] at h
      simp only [Option.some.injEq, Prod.mk.injEq] at h
      have := scanString_length _ _ _ _ _ (Nat.le_refl _) hs
      rw [← h.2]; omega
  · cases hs : stripPrefix "rue".data rest with
    | none => rw [hs] at h; simp at h
    | some rest2 =>
      rw [hs] at h
      simp only [Option.some.injEq, Prod.mk.injEq] at h
      rw [← h.2]; exact stripPrefix_length _ _ _ hs
  · cases hs : stripPrefix "alse".data rest with
    | none => rw [hs] at h; simp at h
    | some rest2 =>
      rw [hs] at h
      simp only [Option.some.injEq, Prod.mk.injEq] at h
      rw [← h.2]; exact stripPrefix_length _ _ _ hs
  · cases hs : stripPrefix "ull".data rest with
    | none => rw [hs] at h; simp at h
    | some rest2 =>
      rw [hs] at h
      simp only [Option.some.injEq, Prod.mk.injEq] at h
      rw [← h.2]; exact stripPrefix_length _ _ _ hs
  · cases hs : scanNumber (c :: rest) with
    | none => rw [hs] at h; simp at h
    | some p =>
      obtain ⟨n, rest2⟩ := p
      rw [hs] at h
      simp only at h
      split_ifs at h
      simp only [Option.some.injEq, Prod.mk.injEq] at h
      have := scanNumber_length _ _ _ hs
      simp only [List.length_cons] at this
      rw [← h.2]; omega

theorem parse_adequate (cr : Bool) : ∀ F : Nat,
    (∀ d cs v r, parseValue cr F d cs = some (v, r) →
      r.length < cs.length ∧
      ∀ f, cs.length ≤ f + r.length → parseValue cr f d cs = some (v, r)) ∧
    (∀ d cs v r, parseMembers cr F d cs = some (v, r) →
      r.length < cs.length ∧
      ∀ f, cs.length ≤ f + r.length → parseMembers cr f d cs = some (v, r)) ∧
    (∀ d cs v r, parseElems cr F d cs = some (v, r) →
      r.length < cs.length ∧
      ∀ f, cs.length ≤ f + r.length → parseElems cr f d cs = some (v, r)) := by
  intro F
  induction F with
  | zero =>
    refine ⟨?_, ?_, ?_⟩
    · intro d cs v r h; rw [parseValue.eq_def] at h; simp at h
    · intro d cs v r h; rw [parseMembers.eq_def] at h; simp at h
    · intro d cs v r h; rw [parseElems.eq_def] at h; simp at h
  | succ F ih =>
    obtain ⟨ihV, ihM, ihE⟩ := ih
    refine ⟨?_, ?_, ?_⟩
    · intro d cs v r h
      cases cs with
      | nil => rw [parseValue.eq_def] at h; simp at h
      | cons c rest =>
        rw [parseValue.eq_def] at h
        simp only at h
        simp only [List.length_cons]
        by_cases h1 : c = '{'
        · rw [if_pos h1] at h
          by_cases h2 : maxNestingDepth ≤ d
          · rw [if_pos h2] at h; simp at h
          · rw [if_neg h2] at h
            have hl := skipWS_length_le rest
            cases hs : skipWS rest with
            | nil => rw [hs] at h; simp at h
            | cons c2 rest2 =>
              rw [hs] at h hl
              simp only at h
              simp only [List.length_cons] at hl
              by_cases h3 : c2 = '}'
              · rw [if_pos h3] at h
                simp only [Option.some.injEq, Prod.mk.injEq] at h
                obtain ⟨rfl, rfl⟩ := h
                refine ⟨by omega, ?_⟩
                intro f hf
                obtain ⟨f', rfl⟩ : ∃ f', f = f' + 1 := ⟨f - 1, by omega⟩
                rw [parseValue.eq_def]
                simp only
                rw [if_pos h1, if_neg h2, hs]
                simp only
                rw [if_pos h3]
              · rw [if_neg h3] at h
                cases hm : parseMembers cr F (d + 1) (c2 :: rest2) with
                | none => rw [hm] at h; simp at h
                | some p =>
                  obtain ⟨kvs, rest3⟩ := p
                  rw [hm] at h
                  simp only [Option.some.injEq, Prod.mk.injEq] at h
                  obtain ⟨rfl, rfl⟩ := h
                  obtain ⟨hlt, hfu⟩ := ihM _ _ _ _ hm
                  simp only [List.length_cons] at hlt hfu
                  refine ⟨by omega, ?_⟩
                  intro f hf
                  obtain ⟨f', rfl⟩ : ∃ f', f = f' + 1 := ⟨f - 1, by omega⟩
                  rw [parseValue.eq_def]
                  simp only
                  rw [if_pos h1, if_neg h2, hs]
                  simp only
                  rw [if_neg h3, hfu f' (by omega)]
        · rw [if_neg h1] at h
          by_cases h1b : c = '['
          · rw [if_pos h1b] at h
            by_cases h2 : maxNestingDepth ≤ d
            · rw [if_pos h2] at h; simp at h
            · rw [if_neg h2] at h
              have hl := skipWS_length_le rest
              cases hs : skipWS rest with
              | nil => rw [hs] at h; simp at h
              | cons c2 rest2 =>
                rw [hs] at h hl
                simp only at h
                simp only [List.length_cons] at hl
                by_cases h3 : c2 = ']'
                · rw [if_pos h3] at h
                  simp only [Option.some.injEq, Prod.mk.injEq] at h
                  obtain ⟨rfl, rfl⟩ := h
                  refine ⟨by omega, ?_⟩
                  intro f hf
                  obtain ⟨f', rfl⟩ : ∃ f', f = f' + 1 := ⟨f - 1, by omega⟩
                  rw [parseValue.eq_def]
                  simp only
                  rw [if_neg h1, if_pos h1b, if_neg h2, hs]
                  simp only
                  rw [if_pos h3]
                · rw [if_neg h3] at h
                  cases hm : parseElems cr F (d + 1) (c2 :: rest2) with
                  | none => rw [hm] at h; simp at h
                  | some p =>
                    obtain ⟨xs, rest3⟩ := p
                    rw [hm] at h
                    simp only [Option.some.injEq, Prod.mk.injEq] at h
                    obtain ⟨rfl, rfl⟩ := h
                    obtain ⟨hlt, hfu⟩ := ihE _ _ _ _ hm
                    simp only [List.length_cons] at hlt hfu
                    refine ⟨by omega, ?_⟩
                    intro f hf
                    obtain ⟨f', rfl⟩ : ∃ f', f = f' + 1 := ⟨f - 1, by omega⟩
                    rw [parseValue.eq_def]
                    simp only
                    rw [if_neg h1, if_pos h1b, if_neg h2, hs]
                    simp only
                    rw [if_neg h3, hfu f' (by omega)]
          · rw [if_neg h1b] at h
            have hl := parseScalar_length _ _ _ _ _ h
            refine ⟨by omega, ?_⟩
            intro f hf
            obtain ⟨f', rfl⟩ : ∃ f', f = f' + 1 := ⟨f - 1, by omega⟩
            rw [parseValue.eq_def]
            simp only
            rw [if_neg h1, if_neg h1b, h]
    · intro d cs v r h
      cases cs with
      | nil => rw [parseMembers.eq_def] at h; simp at h
      | cons c rest =>
        rw [parseMembers.eq_def] at h
        simp only at h
        simp only [List.length_cons]
        by_cases h1 : c = '"'
        · rw [if_pos h1] at h
          cases hk : scanString none rest with
          | none => rw [hk] at h; simp at h
          | some p =>
            obtain ⟨k, rest1⟩ := p
            rw [hk] at h
            simp only at h
            have hl1 := scanString_length _ _ _ _ _ (Nat.le_refl _) hk
            have hl2 := skipWS_length_le rest1
            cases hs1 : skipWS rest1 with
            | nil => rw [hs1] at h; simp at h
            | cons c1 rest2 =>
              rw [hs1] at h hl2
              simp only at h
              simp only [List.length_cons] at hl2
              by_cases h2 : c1 = ':'
              · rw [if_pos h2] at h
                have hl3 := skipWS_length_le rest2
                cases hv : parseValue cr F d (skipWS rest2) with
                | none => rw [hv] at h; simp at h
                | some q =>
                  obtain ⟨v1, rest3⟩ := q
                  rw [hv] at h
                  simp only at h
                  obtain ⟨hlt, hfu⟩ := ihV _ _ _ _ hv
                  have hl4 := skipWS_length_le rest3
                  cases hs3 : skipWS rest3 with
                  | nil => rw [hs3] at h; simp at h
                  | cons c3 rest4 =>
                    rw [hs3] at h hl4
                    simp only at h
                    simp only [List.length_cons] at hl4
                    by_cases h3 : c3 = ','
                    · rw [if_pos h3] at h
                      have hl5 := skipWS_length_le rest4
                      cases hm : parseMembers cr F d (skipWS rest4) with
                      | none => rw [hm] at h; simp at h
                      | some p2 =>
                        obtain ⟨kvs, rest5⟩ := p2
                        rw [hm] at h
                        simp only [Option.some.injEq, Prod.mk.injEq] at h
                        obtain ⟨rfl, rfl⟩ := h
                        obtain ⟨hlt2, hfu2⟩ := ihM _ _ _ _ hm
                        refine ⟨by omega, ?_⟩
                        intro f hf
                        obtain ⟨f', rfl⟩ : ∃ f', f = f' + 1 := ⟨f - 1, by omega⟩
                        rw [parseMembers.eq_def]
                        simp only
                        rw [if_pos h1, hk]
                        simp only
                        rw [hs1]
                        simp only
                        rw [if_pos h2, hfu f' (by omega)]
                        simp only
                        rw [hs3]
                        simp only
                        rw [if_pos h3, hfu2 f' (by omega)]
                    · rw [if_neg h3] at h
                      by_cases h4 : c3 = '}'
                      · rw [if_pos h4] at h
                        simp only [Option.some.injEq, Prod.mk.injEq] at h
                        obtain ⟨rfl, rfl⟩ := h
                        refine ⟨by omega, ?_⟩
                        intro f hf
                        obtain ⟨f', rfl⟩ : ∃ f', f = f' + 1 := ⟨f - 1, by omega⟩
                        rw [parseMembers.eq_def]
                        simp only
                        rw [if_pos h1, hk]
                        simp only
                        rw [hs1]
                        simp only
                        rw [if_pos h2, hfu f' (by omega)]
                        simp only
                        rw [hs3]
                        simp only
                        rw [if_neg h3, if_pos h4]
                      · rw [if_neg h4] at h; simp at h
              · rw [if_neg h2] at h; simp at h
        · rw [if_neg h1] at h; simp at h
    · intro d cs v r h
      rw [parseElems.eq_def] at h
      simp only at h
      cases hv : parseValue cr F d cs with
      | none => rw [hv] at h; simp at h
      | some q =>
        obtain ⟨v1, rest⟩ := q
        rw [hv] at h
        simp only at h
        obtain ⟨hlt, hfu⟩ := ihV _ _ _ _ hv
        have hl := skipWS_length_le rest
        cases hs : skipWS rest with
        | nil => rw [hs] at h; simp at h
        | cons c rest2 =>
          rw [hs] at h hl
          simp only at h
          simp only [List.length_cons] at hl
          by_cases h3 : c = ','
          · rw [if_pos h3] at h
            have hl5 := skipWS_length_le rest2
            cases hm : parseElems cr F d (skipWS rest2) with
            | none => rw [hm] at h; simp at h
            | some p2 =>
              obtain ⟨xs, rest3⟩ := p2
              rw [hm] at h
              simp only [Option.some.injEq, Prod.mk.injEq] at h
              obtain ⟨rfl, rfl⟩ := h
              obtain ⟨hlt2, hfu2⟩ := ihE _ _ _ _ hm
              refine ⟨by omega, ?_⟩
              intro f hf
              obtain ⟨f', rfl⟩ : ∃ f', f = f' + 1 := ⟨f - 1, by omega⟩
              rw [parseElems.eq_def]
              simp only
              rw [hfu f' (by omega)]
              simp only
              rw [hs]
              simp only
              rw [if_pos h3, hfu2 f' (by omega)]
          · rw [if_neg h3] at h
            by_cases h4 : c = ']'
            · rw [if_pos h4] at h
              simp only [Option.some.injEq, Prod.mk.injEq] at h
              obtain ⟨rfl, rfl⟩ := h
              refine ⟨by omega, ?_⟩
              intro f hf
              obtain ⟨f', rfl⟩ : ∃ f', f = f' + 1 := ⟨f - 1, by omega⟩
              rw [parseElems.eq_def]
              simp only
              rw [hfu f' (by omega)]
              simp only
              rw [hs]
              simp only
              rw [if_neg h3, if_pos h4]
            · rw [if_neg h4] at h; simp at h

/-- The recursion bound of the parser is never the reason for a failure:
whatever some bound parses, every bound of at least the input length parses to
the same result.  `unmarshalMap` and `decodeIncomingMsg` pass the input length
plus one. -/
theorem parseValue_fuel (cr : Bool) (F d : Nat) (cs : List Char) (v : JValue) (r : List Char)
    (h : parseValue cr F d cs = some (v, r)) (f : Nat) (hf : cs.length ≤ f) :
    parseValue cr f d cs = some (v, r) :=
  ((parse_adequate cr F).1 d cs v r h).2 f (by omega)

theorem stripPrefix_eq : ∀ (p cs r : List Char), stripPrefix p cs = some r → cs = p ++ r
  | [], cs, r, h => by
    simp only [stripPrefix, Option.some.injEq] at h
    rw [h]; rfl
  | _ :: _, [], r, h => by simp [stripPrefix] at h
  | p :: ps, c :: cs, r, h => by
    rw [stripPrefix] at h
    split_ifs at h with hpc
    rw [stripPrefix_eq ps cs r h, hpc]
    rfl

/-- The literal `null` decodes into the map without error and leaves it nil:
the structured branch is taken, with empty content and userType. -/
theorem inboundDisplay_null (msg : ChatMessage) (now : Time)
    (h : isNullLiteral msg.Message.data = true) :
    inboundDisplay msg now = ⟨"", "Civilian", "", now⟩ := by
  unfold isNullLiteral at h
  cases hs : stripPrefix "null".data (skipWS msg.Message.data) with
  | none => rw [hs] at h; simp at h
  | some rest =>
    rw [hs] at h
    simp only [List.isEmpty_iff] at h
    have hd := stripPrefix_eq _ _ _ hs
    have hp : parseValue true (msg.Message.data.length + 1) 0 (skipWS msg.Message.data)
        = some (JValue.null, rest) := by
      rw [hd, parseValue.eq_def]
      simp [parseScalar, stripPrefix]
    have hu : unmarshalMap msg.Message.data = some [] := by
      unfold unmarshalMap
      rw [hp]
      simp only [h]
    unfold inboundDisplay
    rw [hu]
    simp [mapIndex, assertString, getSenderName]

end DisasterNet
